import Mathlib

/-!
Ant foraging simulation (`ants/main.go`): embedding and verified properties.

The Go program keeps its state in package-level variables (`target`, `nest`,
`ants`, `pheromones`).  Here that state is passed explicitly.

Numbers:

* `float32` / `float64` values are modelled by `Flt`: a rational number, or one of
  the IEEE-754 special values `+Inf`, `-Inf`, `NaN`.  Arithmetic on finite values is
  exact rational arithmetic (binary rounding is not modelled, and conversions between
  `float32` and `float64` are the identity); the special values follow IEEE-754 as
  implemented by Go.  Zero is unsigned and stands for `+0`, the only zero the program
  divides by (`0 - 0`).
* `int32` values are modelled by `Int`, with `wrapInt32` applied where the program
  performs arithmetic (`Time--`, `Range--`).
* The functions of Go's `math` package used by the program (`Sqrt`, `Atan2`, `Cos`,
  `Sin`, the constant `Pi`) are not part of the repository and are taken as a
  parameter (`MathFns`).
* `rand.Float32()` and `rand.Intn` are modelled by streams of draws that are read
  through an explicit cursor.
-/

namespace Ants

/-! ## Floating point values -/

/-- A `float32`/`float64` value: finite (exact rational), infinite, or NaN. -/
inductive Flt where
  | fin (q : ℚ)
  | pinf
  | ninf
  | nan
  deriving DecidableEq, Repr

namespace Flt

/-- Conversion `float32(i)` of an integer. -/
def ofInt (i : Int) : Flt := fin (i : ℚ)

/-- Unary minus. -/
def neg : Flt → Flt
  | fin a => fin (-a)
  | pinf => ninf
  | ninf => pinf
  | nan => nan

/-- IEEE addition. -/
def add : Flt → Flt → Flt
  | nan, _ => nan
  | _, nan => nan
  | fin a, fin b => fin (a + b)
  | fin _, pinf => pinf
  | fin _, ninf => ninf
  | pinf, ninf => nan
  | pinf, _ => pinf
  | ninf, pinf => nan
  | ninf, _ => ninf

/-- IEEE subtraction. -/
def sub (x y : Flt) : Flt := add x (neg y)

/-- The infinity of the given sign: `+Inf` for `true`, `-Inf` for `false`. -/
def signedInf (positive : Bool) : Flt := if positive then pinf else ninf

/-- IEEE multiplication. -/
def mul : Flt → Flt → Flt
  | nan, _ => nan
  | _, nan => nan
  | fin a, fin b => fin (a * b)
  | fin a, pinf => if a = 0 then nan else signedInf (decide (0 < a))
  | fin a, ninf => if a = 0 then nan else signedInf (decide (a < 0))
  | pinf, fin b => if b = 0 then nan else signedInf (decide (0 < b))
  | ninf, fin b => if b = 0 then nan else signedInf (decide (b < 0))
  | pinf, pinf => pinf
  | pinf, ninf => ninf
  | ninf, pinf => ninf
  | ninf, ninf => pinf

/-- IEEE division.  A non-zero value divided by zero (`+0`) is an infinity of the sign
of the dividend, `0 / 0` is NaN; nothing traps. -/
def div : Flt → Flt → Flt
  | nan, _ => nan
  | _, nan => nan
  | fin a, fin b =>
      if b = 0 then (if a = 0 then nan else signedInf (decide (0 < a))) else fin (a / b)
  | fin _, pinf => fin 0
  | fin _, ninf => fin 0
  | pinf, fin b => signedInf (decide (0 ≤ b))
  | ninf, fin b => signedInf (decide (b < 0))
  | pinf, _ => nan
  | ninf, _ => nan

/-- The comparison `x < y` of Go: false as soon as one side is NaN. -/
def lt : Flt → Flt → Bool
  | nan, _ => false
  | _, nan => false
  | fin a, fin b => decide (a < b)
  | fin _, pinf => true
  | fin _, ninf => false
  | pinf, _ => false
  | ninf, ninf => false
  | ninf, _ => true

/-- The comparison `x <= y` of Go. -/
def le : Flt → Flt → Bool
  | nan, _ => false
  | _, nan => false
  | fin a, fin b => decide (a ≤ b)
  | fin _, pinf => true
  | fin _, ninf => false
  | pinf, pinf => true
  | pinf, _ => false
  | ninf, _ => true

/-- The comparison `x > y` of Go. -/
def gt (x y : Flt) : Bool := lt y x

/-- The comparison `x >= y` of Go. -/
def ge (x y : Flt) : Bool := le y x

/-- The comparison `x == y` of Go: NaN is different from everything. -/
def eq : Flt → Flt → Bool
  | fin a, fin b => decide (a = b)
  | pinf, pinf => true
  | ninf, ninf => true
  | _, _ => false

/-- Go's builtin `min` on floats: NaN if an argument is NaN, else the smaller one. -/
def min (x y : Flt) : Flt :=
  match x, y with
  | nan, _ => nan
  | _, nan => nan
  | _, _ => if lt y x then y else x

/-- Go's builtin `max` on floats. -/
def max (x y : Flt) : Flt :=
  match x, y with
  | nan, _ => nan
  | _, nan => nan
  | _, _ => if lt x y then y else x

/-- Absolute value, `math.Abs`. -/
def abs : Flt → Flt
  | fin a => fin |a|
  | pinf => pinf
  | ninf => pinf
  | nan => nan

/-- The value is an ordinary number. -/
def isFin : Flt → Bool
  | fin _ => true
  | _ => false

end Flt

/-- The `math` functions the program calls, with the constant `math.Pi`. -/
structure MathFns where
  Sqrt : Flt → Flt
  Atan2 : Flt → Flt → Flt
  Cos : Flt → Flt
  Sin : Flt → Flt
  Pi : Flt

/-- The `int32` result of an integer computation (two's complement wrap-around). -/
def wrapInt32 (x : Int) : Int := (x + 2147483648) % 4294967296 - 2147483648

/-! ## Data model -/

/-- The type `Point = rl.Vector2`. -/
structure Point where
  X : Flt
  Y : Flt
  deriving DecidableEq, Repr

/-- The struct `Target`. -/
structure Target where
  Position : Point
  Size : Int
  Range : Int
  deriving DecidableEq, Repr

/-- The type `rl.Color` (RGBA). -/
structure Color where
  R : Nat
  G : Nat
  B : Nat
  A : Nat
  deriving DecidableEq, Repr

/-- The struct `Ant`. -/
structure Ant where
  Position : Point
  NextPosition : Point
  Path : List Point
  Target : Target
  HasFood : Bool
  Color : Color
  Id : Nat
  deriving DecidableEq, Repr

/-- The struct `Pheromone`. -/
structure Pheromone where
  Position : Point
  Size : Flt
  Time : Int
  AntId : Nat
  deriving DecidableEq, Repr

/-- The zero value `Point{}`. -/
def Point.zero : Point := ⟨Flt.fin 0, Flt.fin 0⟩

/-- Go's `==` on `Point`. -/
def Point.eq (p q : Point) : Bool := Flt.eq p.X q.X && Flt.eq p.Y q.Y

/-- Go's `==` on `Target`: all fields are compared. -/
def Target.eq (s t : Target) : Bool :=
  Point.eq s.Position t.Position && decide (s.Size = t.Size) && decide (s.Range = t.Range)

/-! ## Constants -/

def Width : Flt := Flt.fin 2560
def Height : Flt := Flt.fin 1440
def FPS : Int := 60
def AntCount : Nat := 20
def MaxAntAngle : Flt := Flt.fin 270
def MinAntAngle : Flt := Flt.fin 5
def AntSpeed : Flt := Flt.fin 350
def PheromoneMaxRange : Flt := Flt.fin 500
def PheromoneMaxTime : Int := 30 * FPS
def PheromoneFreq : Int := 5

/-- The constant expression `AntSpeed/PheromoneFreq` (`350/5`). -/
def StepLength : Flt := Flt.fin 70

/-- The palette `FG`. -/
def FG : List Color :=
  [⟨137, 180, 250, 255⟩, ⟨245, 224, 220, 255⟩, ⟨242, 205, 205, 255⟩, ⟨245, 194, 231, 255⟩,
   ⟨203, 166, 247, 255⟩, ⟨243, 139, 168, 255⟩, ⟨235, 160, 172, 255⟩, ⟨250, 179, 135, 255⟩,
   ⟨249, 226, 175, 255⟩, ⟨166, 227, 161, 255⟩, ⟨148, 226, 213, 255⟩, ⟨137, 220, 235, 255⟩,
   ⟨116, 199, 236, 255⟩, ⟨137, 180, 250, 255⟩, ⟨180, 190, 254, 255⟩]

/-! ## Math functions -/

/-- The function `curve`: the linear curve. -/
def curve (x : Flt) : Flt := x

/-- The function `normalize`: `min((v-minimum)/(maximum-minimum), 1)`. -/
def normalize (v minimum maximum : Flt) : Flt :=
  Flt.min (Flt.div (Flt.sub v minimum) (Flt.sub maximum minimum)) (Flt.fin 1)

/-- The function `scale`: `v*(maximum-minimum) + minimum`. -/
def scale (v minimum maximum : Flt) : Flt :=
  Flt.add (Flt.mul v (Flt.sub maximum minimum)) minimum

/-- The function `distance`. -/
def distance (M : MathFns) (p1 p2 : Point) : Flt :=
  let dx := Flt.sub p1.X p2.X
  let dy := Flt.sub p1.Y p2.Y
  M.Sqrt (Flt.add (Flt.mul dx dx) (Flt.mul dy dy))

/-- The function `angleRads`. -/
def angleRads (M : MathFns) (p1 p2 : Point) : Flt :=
  M.Atan2 (Flt.sub p1.Y p2.Y) (Flt.sub p1.X p2.X)

/-- The function `deg2Rad`. -/
def deg2Rad (M : MathFns) (deg : Flt) : Flt := Flt.div (Flt.mul deg M.Pi) (Flt.fin 180)

/-- The function `rad2Deg`. -/
def rad2Deg (M : MathFns) (rad : Flt) : Flt := Flt.div (Flt.mul rad (Flt.fin 180)) M.Pi

/-- The function `extendLine`. -/
def extendLine (M : MathFns) (p : Point) (angle dist : Flt) : Point :=
  ⟨Flt.add p.X (Flt.mul dist (M.Cos angle)), Flt.add p.Y (Flt.mul dist (M.Sin angle))⟩

/-- The function `focusAngle`. -/
def focusAngle (dist maxVal : Flt) : Flt :=
  scale (curve (normalize dist (Flt.fin 0) maxVal)) MinAntAngle MaxAntAngle

/-! ## The marker store -/

/-- What one iteration of the loop of `updatePheromones` does to the marker itself:
`spot.Time--` (on an `int32`) and the recomputation of `spot.Size`. -/
def decay (spot : Pheromone) : Pheromone :=
  let time := wrapInt32 (spot.Time - 1)
  { spot with
    Time := time
    Size := scale (curve (normalize (Flt.ofInt time) (Flt.fin 0) (Flt.ofInt PheromoneMaxTime)))
      (Flt.fin 0) PheromoneMaxRange }

/-- One iteration of the loop of `updatePheromones` on the marker at index `i`: the
marker is updated, then `deleteFlag` and `index`. -/
def updateSpot (len i : Int) (spot : Pheromone) (deleteFlag : Bool) (index : Int) :
    Pheromone × Bool × Int :=
  let spot := decay spot
  let deleteFlag := if spot.Time ≤ 0 then true else deleteFlag
  let index :=
    if deleteFlag && index == -1 && (decide (spot.Time > 0) || i == len - 1) then i else index
  (spot, deleteFlag, index)

/-- The loop `for i := range pheromones` of `updatePheromones`, from index `i` on. -/
def updateLoop (len : Int) : List Pheromone → Int → Bool → Int → List Pheromone × Bool × Int
  | [], _, deleteFlag, index => ([], deleteFlag, index)
  | spot :: rest, i, deleteFlag, index =>
      let r := updateSpot len i spot deleteFlag index
      let rs := updateLoop len rest (i + 1) r.2.1 r.2.2
      (r.1 :: rs.1, rs.2.1, rs.2.2)

/-- The function `updatePheromones`, as a function of the store. -/
def updatePheromones (pheromones : List Pheromone) : List Pheromone :=
  let r := updateLoop pheromones.length pheromones 0 false (-1)
  if r.2.1 && decide (r.2.2 > -1) then r.1.drop r.2.2.toNat else r.1

/-! ## Steering -/

/-- The source of randomness: the result of the `n`-th call of the generator when it is
a `rand.Float32()`, and when it is a `rand.Intn(k)`. -/
structure Rand where
  Float32 : Nat → Flt
  Intn : Nat → Nat → Nat

/-- The function `randPoint`; the cursor counts the draws made so far. -/
def randPoint (R : Rand) (cur : Nat) : Point × Nat :=
  (⟨scale (R.Float32 cur) (Flt.fin 0) Width, scale (R.Float32 (cur + 1)) (Flt.fin 0) Height⟩,
    cur + 2)

/-- The proximity test of `moveAnt`: both coordinate offsets are below 50. -/
def nearSpot (ant : Ant) (p : Pheromone) : Bool :=
  Flt.lt (Flt.abs (Flt.sub ant.Position.X p.Position.X)) (Flt.fin 50) &&
    Flt.lt (Flt.abs (Flt.sub ant.Position.Y p.Position.Y)) (Flt.fin 50)

/-- The loop `for _, p := range pheromones` of `moveAnt`, carrying `minTime` and
`target`. -/
def scanPheromones (ant : Ant) : List Pheromone → Int → Target → Int × Target
  | [], minTime, target => (minTime, target)
  | p :: rest, minTime, target =>
      if nearSpot ant p && decide (p.Time < minTime) then
        scanPheromones ant rest p.Time { Position := p.Position, Size := 0, Range := 0 }
      else
        scanPheromones ant rest minTime target

/-- The local `target` of `moveAnt` once the trail scan is done. -/
def effectiveTarget (ant : Ant) (pheromones : List Pheromone) (dist : Flt) : Target :=
  if !ant.HasFood && decide (pheromones.length > 1) &&
      Flt.gt dist (Flt.ofInt ant.Target.Range) then
    (scanPheromones ant pheromones PheromoneMaxTime ant.Target).2
  else
    ant.Target

/-- The exit test of the resampling loop: `!(t.X >= Width || t.X < 0 || t.Y >= Height || t.Y < 0)`. -/
def inBounds (t : Point) : Bool :=
  !(Flt.ge t.X Width || Flt.lt t.X (Flt.fin 0) || Flt.ge t.Y Height || Flt.lt t.Y (Flt.fin 0))

/-- The loop `for { ... }` of `moveAnt`.  `fuel` bounds the number of iterations that
are run; the result is `none` when the loop has not ended within `fuel` iterations.
On success the accepted point and the cursor of the generator are returned. -/
def resample (M : MathFns) (R : Rand) (pos : Point) (lo hi : Flt) :
    Nat → Nat → Flt → Option (Point × Nat)
  | 0, _, _ => none
  | fuel + 1, cur, randAngle =>
      let t := extendLine M pos randAngle StepLength
      if inBounds t then some (t, cur)
      else resample M R pos lo hi fuel (cur + 1) (scale (R.Float32 cur) lo hi)

/-- The lines of `moveAnt` from `angle := focusAngle(...)` to `angle1, angle2 := ...`:
the two ends `min(angle1, angle2)` and `max(angle1, angle2)` of the steering cone around
the bearing of `target`. -/
def cone (M : MathFns) (position : Point) (target : Target) (dist : Flt) : Flt × Flt :=
  let angle := focusAngle dist (Flt.ofInt target.Range)
  let dAngle := rad2Deg M (angleRads M target.Position position)
  let angle1 := deg2Rad M (Flt.sub dAngle (Flt.div angle (Flt.fin 2)))
  let angle2 := deg2Rad M (Flt.add dAngle (Flt.div angle (Flt.fin 2)))
  (Flt.min angle1 angle2, Flt.max angle1 angle2)

/-- The lines of `moveAnt` after the resampling loop: `ant.NextPosition = t`, and an
agent with food records its position and, from the second recorded point on, drops a
marker at the last but one. -/
def recordStep (ant : Ant) (pheromones : List Pheromone) (t : Point) : Ant × List Pheromone :=
  if ant.HasFood then
    let path := ant.Path ++ [ant.Position]
    if path.length > 1 then
      let spot : Pheromone :=
        { Position := path.getD (path.length - 2) Point.zero
          Time := PheromoneMaxTime
          Size := PheromoneMaxRange
          AntId := ant.Id }
      ({ ant with NextPosition := t, Path := path }, pheromones ++ [spot])
    else
      ({ ant with NextPosition := t, Path := path }, pheromones)
  else
    ({ ant with NextPosition := t }, pheromones)

/-- The function `moveAnt`, on the agent, the marker store and the cursor of the
generator.  The result is `none` when the resampling loop does not end within `fuel`
iterations. -/
def moveAnt (M : MathFns) (R : Rand) (fuel cur : Nat) (pheromones : List Pheromone) (ant : Ant)
    (frame : Int) (dt : Flt) : Option (Ant × List Pheromone × Nat) :=
  if frame % (FPS / PheromoneFreq) = 0 then
    let dist := distance M ant.Target.Position ant.Position
    if Flt.lt dist StepLength then
      some ({ ant with NextPosition := ant.Target.Position }, pheromones, cur)
    else
      let target := effectiveTarget ant pheromones dist
      let c := cone M ant.Position target dist
      match resample M R ant.Position c.1 c.2 fuel (cur + 1) (scale (R.Float32 cur) c.1 c.2) with
      | none => none
      | some (t, cur1) =>
          let r := recordStep ant pheromones t
          some (r.1, r.2, cur1)
  else
    let position :=
      extendLine M ant.Position (angleRads M ant.NextPosition ant.Position) (Flt.mul AntSpeed dt)
    some ({ ant with Position := position }, pheromones, cur)

/-! ## The world -/

/-- The package-level variables `target`, `nest`, `ants` and `pheromones`. -/
structure World where
  target : Target
  nest : Target
  ants : List Ant
  pheromones : List Pheromone
  deriving DecidableEq, Repr

/-- The values of the package-level variables when the program starts. -/
def World.start : World :=
  { target := { Position := Point.zero, Size := 25, Range := 250 }
    nest := { Position := Point.zero, Size := 10, Range := 500 }
    ants := []
    pheromones := [] }

/-- The loop `for i := range AntCount` of `initPoints`: `n` agents are still to be
created, the next one has id `i`. -/
def initAnts (R : Rand) (target nest : Target) : Nat → Nat → Nat → List Ant × Nat
  | 0, _, cur => ([], cur)
  | n + 1, i, cur =>
      let ant : Ant :=
        { Position := nest.Position
          NextPosition := Point.zero
          Color := FG.getD (R.Intn cur FG.length) ⟨0, 0, 0, 0⟩
          Path := []
          Target := target
          HasFood := false
          Id := i }
      let r := initAnts R target nest n (i + 1) (cur + 1)
      (ant :: r.1, r.2)

/-- The function `initPoints`. -/
def initPoints (R : Rand) (cur : Nat) (w : World) : World × Nat :=
  let p1 := randPoint R cur
  let target := { w.target with Position := p1.1 }
  let p2 := randPoint R p1.2
  let nest := { w.nest with Position := p2.1 }
  let r := initAnts R target nest AntCount 0 p2.2
  ({ w with target := target, nest := nest, ants := r.1 }, r.2)

/-- The arrival test of the main loop:
`distance(ant.Position, ant.Target.Position) <= float32(ant.Target.Size)`. -/
def arrived (M : MathFns) (ant : Ant) : Bool :=
  Flt.le (distance M ant.Position ant.Target.Position) (Flt.ofInt ant.Target.Size)

/-- The body of the arrival test of the main loop, on the global `target` and the
agent. -/
def arrive (target nest : Target) (ant : Ant) : Target × Ant :=
  if Target.eq ant.Target target then
    ({ target with Range := wrapInt32 (target.Range - 1) },
      { ant with HasFood := true, Target := nest, Path := [] })
  else
    (target, { ant with HasFood := false, Target := target, Path := [] })

/-- The loop `for i := range ants` of the main loop, from some agent on. -/
def antsLoop (M : MathFns) (R : Rand) (fuel : Nat) (frame : Int) (dt : Flt) (nest : Target) :
    List Ant → Target → List Pheromone → Nat → Option (List Ant × Target × List Pheromone × Nat)
  | [], target, pheromones, cur => some ([], target, pheromones, cur)
  | ant :: rest, target, pheromones, cur =>
      if arrived M ant then
        let r := arrive target nest ant
        (antsLoop M R fuel frame dt nest rest r.1 pheromones cur).map
          fun s => (r.2 :: s.1, s.2)
      else
        match moveAnt M R fuel cur pheromones ant frame dt with
        | none => none
        | some (ant1, pheromones1, cur1) =>
            (antsLoop M R fuel frame dt nest rest target pheromones1 cur1).map
              fun s => (ant1 :: s.1, s.2)

/-- The simulation part of one iteration of the main loop (the block `if start`),
for the frame number `frame` (already incremented). -/
def simulate (M : MathFns) (R : Rand) (fuel cur : Nat) (frame : Int) (dt : Flt) (w : World) :
    Option (World × Nat) :=
  let pheromones := updatePheromones w.pheromones
  (antsLoop M R fuel frame dt w.nest w.ants w.target pheromones cur).map
    fun s => ({ w with ants := s.1, target := s.2.1, pheromones := s.2.2.1 }, s.2.2.2)

/-- A stand-in for the `math` package in concrete evaluations: square roots are rounded
down to an integer, and `Atan2`, `Cos` and `Sin` are given on the eight compass
directions and the quarter turns, where their values are rational multiples of `Pi`
or one of `0`, `1`, `-1`; elsewhere they return `0`.  `Pi` is `355/113`. -/
def compassMath : MathFns where
  Pi := Flt.fin (355 / 113)
  Sqrt := fun x =>
    match x with
    | Flt.fin q => if q < 0 then Flt.nan else Flt.fin (Nat.sqrt ⌊q⌋₊)
    | Flt.pinf => Flt.pinf
    | _ => Flt.nan
  Atan2 := fun y x =>
    match y, x with
    | Flt.fin b, Flt.fin a =>
        if b = 0 then (if 0 ≤ a then Flt.fin 0 else Flt.fin (355 / 113))
        else if a = 0 then (if 0 < b then Flt.fin (355 / 226) else Flt.fin (-(355 / 226)))
        else if b = a then (if 0 < a then Flt.fin (355 / 452) else Flt.fin (-(1065 / 452)))
        else if b = -a then (if 0 < a then Flt.fin (-(355 / 452)) else Flt.fin (1065 / 452))
        else Flt.fin 0
    | _, _ => Flt.nan
  Cos := fun x =>
    match x with
    | Flt.fin a =>
        if a = 0 then Flt.fin 1
        else if a = 355 / 113 ∨ a = -(355 / 113) then Flt.fin (-1)
        else if a = 355 / 226 ∨ a = -(355 / 226) then Flt.fin 0
        else Flt.fin 0
    | _ => Flt.nan
  Sin := fun x =>
    match x with
    | Flt.fin a =>
        if a = 355 / 226 then Flt.fin 1
        else if a = -(355 / 226) then Flt.fin (-1)
        else if a = 0 ∨ a = 355 / 113 ∨ a = -(355 / 113) then Flt.fin 0
        else Flt.fin 0
    | _ => Flt.nan

/-! ## Vocabulary of the statements -/

/-- The point lies in the world: `0 <= X < Width` and `0 <= Y < Height`. -/
def inWorld (p : Point) : Prop :=
  Flt.le (Flt.fin 0) p.X = true ∧ Flt.lt p.X Width = true ∧
    Flt.le (Flt.fin 0) p.Y = true ∧ Flt.lt p.Y Height = true

/-- Both coordinates are ordinary numbers (neither infinite nor NaN). -/
def Point.isFin (p : Point) : Bool := p.X.isFin && p.Y.isFin

/-- The `math` functions return ordinary numbers on ordinary arguments (square roots:
on non-negative ones), and `Pi` is an ordinary number other than zero. -/
structure MathFns.Finite (M : MathFns) : Prop where
  sqrt_fin : ∀ q : ℚ, 0 ≤ q → (M.Sqrt (Flt.fin q)).isFin = true
  atan2_fin : ∀ a b : ℚ, (M.Atan2 (Flt.fin a) (Flt.fin b)).isFin = true
  cos_fin : ∀ a : ℚ, (M.Cos (Flt.fin a)).isFin = true
  sin_fin : ∀ a : ℚ, (M.Sin (Flt.fin a)).isFin = true
  pi_fin : ∃ p : ℚ, p ≠ 0 ∧ M.Pi = Flt.fin p

/-- The angle tried by the `j`-th iteration of the resampling loop of `moveAnt` that is
entered with the angle `randAngle` and the cursor `cur`: the first one is `randAngle`,
the later ones are drawn anew. -/
def retryAngle (R : Rand) (lo hi : Flt) (cur : Nat) (randAngle : Flt) : Nat → Flt
  | 0 => randAngle
  | j + 1 => scale (R.Float32 (cur + j)) lo hi

/-- A generator all of whose draws are `0`. -/
def zeroRand : Rand where
  Float32 := fun _ => Flt.fin 0
  Intn := fun _ _ => 0

/-- A marker at the origin with the given `Time`. -/
def spotAt (x y : ℚ) (time : Int) : Pheromone :=
  { Position := ⟨Flt.fin x, Flt.fin y⟩, Size := PheromoneMaxRange, Time := time, AntId := 0 }

/-- An agent without food at `(x, y)` that holds the given copy of its target. -/
def seeker (id : Nat) (x y : ℚ) (target : Target) : Ant :=
  { Position := ⟨Flt.fin x, Flt.fin y⟩
    NextPosition := ⟨Flt.fin x, Flt.fin y⟩
    Path := []
    Target := target
    HasFood := false
    Color := ⟨137, 180, 250, 255⟩
    Id := id }

/-- A food source at `(x, y)` with the initial `Size` and the given `Range`. -/
def foodAt (x y : ℚ) (range : Int) : Target :=
  { Position := ⟨Flt.fin x, Flt.fin y⟩, Size := 25, Range := range }

/-- A nest at `(x, y)`. -/
def nestAt (x y : ℚ) : Target :=
  { Position := ⟨Flt.fin x, Flt.fin y⟩, Size := 10, Range := 500 }

/-- The marker Times are non-decreasing in index order. -/
def nonDecreasing (pheromones : List Pheromone) : Prop :=
  pheromones.Pairwise (fun a b => a.Time ≤ b.Time)

/-- Strict removal, in the words of the claim: every marker is decremented, and the
result is the list of the markers whose decremented `Time` is `> 0`, in order, except
that for a store that is not empty and has no such marker it is the last marker alone. -/
def strictRemoval (pheromones : List Pheromone) : List Pheromone :=
  let alive := (pheromones.map decay).filter (fun p => decide (0 < p.Time))
  if !pheromones.isEmpty && alive.isEmpty then (pheromones.map decay).getLast?.toList
  else alive

/-! ## Arithmetic on ordinary numbers -/

theorem flt_add_fin (a b : ℚ) : Flt.add (Flt.fin a) (Flt.fin b) = Flt.fin (a + b) := rfl

theorem flt_sub_fin (a b : ℚ) : Flt.sub (Flt.fin a) (Flt.fin b) = Flt.fin (a - b) := by
  simp [Flt.sub, Flt.neg, Flt.add, sub_eq_add_neg]

theorem flt_mul_fin (a b : ℚ) : Flt.mul (Flt.fin a) (Flt.fin b) = Flt.fin (a * b) := rfl

theorem flt_div_fin (a b : ℚ) (h : b ≠ 0) : Flt.div (Flt.fin a) (Flt.fin b) = Flt.fin (a / b) := by
  simp [Flt.div, h]

theorem flt_min_fin (a b : ℚ) : Flt.min (Flt.fin a) (Flt.fin b) = Flt.fin (min a b) := by
  by_cases h : b < a
  · simp [Flt.min, Flt.lt, h, min_eq_right h.le]
  · simp [Flt.min, Flt.lt, h, min_eq_left (not_lt.mp h)]

theorem flt_max_fin (a b : ℚ) : Flt.max (Flt.fin a) (Flt.fin b) = Flt.fin (max a b) := by
  by_cases h : a < b
  · simp [Flt.max, Flt.lt, h, max_eq_right h.le]
  · simp [Flt.max, Flt.lt, h, max_eq_left (not_lt.mp h)]

theorem flt_isFin_iff (x : Flt) : x.isFin = true ↔ ∃ q, x = Flt.fin q := by
  cases x <;> simp [Flt.isFin]

/-! ## The arrival transition -/

/-- The two branches of the arrival transition: the path is always cleared; an agent
whose copy of its target compares equal to the global `target` picks up food and turns
to the nest while the global `Range` is decremented, every other agent ends up without
food and with a fresh copy of the global `target`. -/
theorem arrive_branches (target nest : Target) (ant : Ant) :
    (arrive target nest ant).2.Path = [] ∧
    (Target.eq ant.Target target = true →
      (arrive target nest ant).2.HasFood = true ∧ (arrive target nest ant).2.Target = nest ∧
      (arrive target nest ant).1 = { target with Range := wrapInt32 (target.Range - 1) }) ∧
    (Target.eq ant.Target target = false →
      (arrive target nest ant).2.HasFood = false ∧ (arrive target nest ant).2.Target = target ∧
      (arrive target nest ant).1 = target) := by
  unfold arrive
  by_cases h : Target.eq ant.Target target = true
  · simp [h]
  · simp [h]

/-- C1, evaluated on the code: two agents without food stand on the food source, each
holding a copy of the food target with `Range = 250`, as `initPoints` hands it out.
Within one pass of the main loop the first agent picks up food and turns to the nest,
and the global `Range` drops to 249.  The copy of the second agent is now different
from the global target, so its arrival takes the `else` branch: `HasFood` stays false
(it is not negated) and its `Target` is the food source again, not the nest. -/
theorem arrival_with_stale_copy_keeps_seeking :
    arrived compassMath (seeker 1 100 100 (foodAt 100 100 250)) = true ∧
    antsLoop compassMath zeroRand 0 1 (Flt.fin (1 / 60)) (nestAt 900 900)
        [seeker 0 100 100 (foodAt 100 100 250), seeker 1 100 100 (foodAt 100 100 250)]
        (foodAt 100 100 250) [] 0 =
      some ([{ seeker 0 100 100 (foodAt 100 100 250) with
                HasFood := true, Target := nestAt 900 900 },
             { seeker 1 100 100 (foodAt 100 100 250) with
                HasFood := false, Target := foodAt 100 100 249 }],
            foodAt 100 100 249, [], 0) := by
  constructor
  · simp [arrived, distance, compassMath, seeker, foodAt, Flt.sub, Flt.add, Flt.neg, Flt.mul,
      Flt.le, Flt.ofInt]
  · simp [antsLoop, arrived, arrive, distance, compassMath, seeker, foodAt, nestAt, Target.eq,
      Point.eq, Flt.eq, Flt.sub, Flt.add, Flt.neg, Flt.mul, Flt.le, Flt.ofInt, wrapInt32]

/-! ## The marker store -/

theorem updateLoop_fst (len : Int) (ps : List Pheromone) (i : Int) (d : Bool) (ix : Int) :
    (updateLoop len ps i d ix).1 = ps.map decay := by
  induction ps generalizing i d ix with
  | nil => rfl
  | cons p rest ih => simp [updateLoop, updateSpot, ih]

/-- Once `index` is set it is not changed any more. -/
theorem updateLoop_index_set (len : Int) (ps : List Pheromone) (i : Int) (d : Bool) (ix : Int)
    (h : ix ≠ -1) : (updateLoop len ps i d ix).2.2 = ix := by
  induction ps generalizing i d with
  | nil => rfl
  | cons p rest ih =>
      simp only [updateLoop, updateSpot]
      have hb : (ix == -1) = false := by simpa using h
      simp only [hb, Bool.and_false, Bool.false_and, Bool.false_eq_true, if_false]
      exact ih _ _

/-- Once `deleteFlag` is set it stays set. -/
theorem updateLoop_flag_set (len : Int) (ps : List Pheromone) (i : Int) (ix : Int) :
    (updateLoop len ps i true ix).2.1 = true := by
  induction ps generalizing i ix with
  | nil => rfl
  | cons p rest ih =>
      simp only [updateLoop, updateSpot]
      simp only [ite_self]
      exact ih _ _

/-- While every marker is alive after its decrement, `deleteFlag` stays unset. -/
theorem updateLoop_all_alive (len : Int) (ps : List Pheromone) (i : Int)
    (h : ∀ p ∈ ps.map decay, 0 < p.Time) :
    (updateLoop len ps i false (-1)).2.1 = false := by
  induction ps generalizing i with
  | nil => rfl
  | cons p rest ih =>
      have hp : 0 < (decay p).Time := h _ (by simp)
      have hr : ∀ q ∈ rest.map decay, 0 < q.Time := fun q hq => h q (by simp at hq ⊢; exact Or.inr hq)
      simp only [updateLoop, updateSpot]
      have hn : ¬ (decay p).Time ≤ 0 := not_le.mpr hp
      simp only [hn, if_false, Bool.false_and, Bool.false_eq_true]
      exact ih _ hr

/-- The loop entered with `deleteFlag` set and `index` unset: `index` becomes the first
position from here on that is alive or last. -/
theorem updateLoop_after_expired (ps : List Pheromone) (i : Nat) (hne : ps ≠ []) :
    ∃ e q r, ps.map decay = e ++ q :: r ∧ (∀ p ∈ e, p.Time ≤ 0) ∧ (0 < q.Time ∨ r = []) ∧
      (updateLoop ((i + ps.length : Nat) : Int) ps i true (-1)).2.2 = ((i + e.length : Nat) : Int) := by
  induction ps generalizing i with
  | nil => exact absurd rfl hne
  | cons p rest ih =>
      by_cases hp : 0 < (decay p).Time
      · refine ⟨[], decay p, rest.map decay, by simp, by simp, Or.inl hp, ?_⟩
        simp only [updateLoop, updateSpot]
        have : (if (true && ((-1 : Int) == -1) && (decide ((decay p).Time > 0) ||
            ((i : Int) == ((i + (p :: rest).length : Nat) : Int) - 1))) = true then (i : Int)
            else -1) = i := by simp [hp]
        simp only [ite_self, this]
        rw [updateLoop_index_set _ _ _ _ _ (by omega)]
        simp
      · by_cases hr : rest = []
        · subst hr
          refine ⟨[], decay p, [], by simp, by simp, Or.inr rfl, ?_⟩
          simp [updateLoop, updateSpot]
        · obtain ⟨e, q, r, hmap, he, hq, hix⟩ := ih (i + 1) hr
          refine ⟨decay p :: e, q, r, by simp [hmap], ?_, hq, ?_⟩
          · intro x hx
            rcases List.mem_cons.mp hx with rfl | hx
            · exact not_lt.mp hp
            · exact he x hx
          · simp only [updateLoop, updateSpot]
            have hlen : 0 < rest.length := List.length_pos.mpr hr
            have : (if (true && ((-1 : Int) == -1) && (decide ((decay p).Time > 0) ||
                ((i : Int) == ((i + (p :: rest).length : Nat) : Int) - 1))) = true then (i : Int)
                else -1) = -1 := by
              have h1 : ¬ ((i : Int) = (i : Int) + ((rest.length : Int) + 1) - 1) := by omega
              simp [hp, h1]
            simp only [ite_self, this]
            have e1 : ((i + (p :: rest).length : Nat) : Int) = ((i + 1 + rest.length : Nat) : Int) := by
              simp only [List.length_cons]; omega
            have e2 : ((i : Int) + 1) = ((i + 1 : Nat) : Int) := by omega
            rw [e1, e2, hix]
            simp only [List.length_cons]; omega

/-- The loop entered with `deleteFlag` and `index` unset, on a store with an expired
marker: the markers before the first expired one are passed over, then `index` becomes
the first position at or after it that is alive or last. -/
theorem updateLoop_first_expired (ps : List Pheromone) (i : Nat)
    (h : ∃ p ∈ ps.map decay, p.Time ≤ 0) :
    ∃ a e q r, ps.map decay = a ++ e ++ q :: r ∧ (∀ p ∈ a, 0 < p.Time) ∧
      (∀ p ∈ e, p.Time ≤ 0) ∧ (e ≠ [] ∨ q.Time ≤ 0) ∧ (0 < q.Time ∨ r = []) ∧
      (updateLoop ((i + ps.length : Nat) : Int) ps i false (-1)).2.1 = true ∧
      (updateLoop ((i + ps.length : Nat) : Int) ps i false (-1)).2.2 =
        ((i + (a.length + e.length) : Nat) : Int) := by
  induction ps generalizing i with
  | nil => simp at h
  | cons p rest ih =>
      by_cases hp : (decay p).Time ≤ 0
      · by_cases hr : rest = []
        · subst hr
          refine ⟨[], [], decay p, [], by simp, by simp, by simp, Or.inr hp, Or.inr rfl, ?_, ?_⟩
          · simp [updateLoop, updateSpot, hp]
          · simp [updateLoop, updateSpot, hp]
        · obtain ⟨e, q, r, hmap, he, hq, hix⟩ := updateLoop_after_expired rest (i + 1) hr
          have hlen : 0 < rest.length := List.length_pos.mpr hr
          have hstep : updateSpot ((i + (p :: rest).length : Nat) : Int) i p false (-1) =
              (decay p, true, -1) := by
            have h1 : ¬ ((i : Int) = (i : Int) + ((rest.length : Int) + 1) - 1) := by omega
            have h2 : ¬ 0 < (decay p).Time := not_lt.mpr hp
            simp [updateSpot, hp, h1, h2]
          have e1 : ((i + (p :: rest).length : Nat) : Int) = ((i + 1 + rest.length : Nat) : Int) := by
            simp only [List.length_cons]; omega
          have e2 : ((i : Int) + 1) = ((i + 1 : Nat) : Int) := by omega
          refine ⟨[], decay p :: e, q, r, by simp [hmap], by simp, ?_, Or.inl (by simp), hq, ?_, ?_⟩
          · intro x hx
            rcases List.mem_cons.mp hx with rfl | hx
            · exact hp
            · exact he x hx
          · simp only [updateLoop, hstep]
            exact updateLoop_flag_set _ _ _ _
          · simp only [updateLoop, hstep]
            rw [e1, e2, hix]
            simp only [List.length_cons, List.length_nil]; omega
      · have hp1 : 0 < (decay p).Time := not_le.mp hp
        have hrest : ∃ x ∈ rest.map decay, x.Time ≤ 0 := by
          obtain ⟨x, hx, hx0⟩ := h
          simp only [List.map_cons, List.mem_cons] at hx
          rcases hx with rfl | hx
          · exact absurd hx0 hp
          · exact ⟨x, hx, hx0⟩
        obtain ⟨a, e, q, r, hmap, ha, he, hne, hq, hflag, hix⟩ := ih (i + 1) hrest
        have hstep : updateSpot ((i + (p :: rest).length : Nat) : Int) i p false (-1) =
            (decay p, false, -1) := by
          simp [updateSpot, hp]
        have e1 : ((i + (p :: rest).length : Nat) : Int) = ((i + 1 + rest.length : Nat) : Int) := by
          simp only [List.length_cons]; omega
        have e2 : ((i : Int) + 1) = ((i + 1 : Nat) : Int) := by omega
        refine ⟨decay p :: a, e, q, r, by simp [hmap], ?_, he, hne, hq, ?_, ?_⟩
        · intro x hx
          rcases List.mem_cons.mp hx with rfl | hx
          · exact hp1
          · exact ha x hx
        · simp only [updateLoop, hstep]
          rw [e1, e2]; exact hflag
        · simp only [updateLoop, hstep]
          rw [e1, e2, hix]
          simp only [List.length_cons]; omega

/-- The result of `updatePheromones` is the decayed store without some of its first
markers. -/
theorem updatePheromones_eq_drop (ps : List Pheromone) :
    ∃ k, k ≤ ps.length ∧ updatePheromones ps = (ps.map decay).drop k := by
  unfold updatePheromones
  simp only [updateLoop_fst]
  split
  · by_cases hk : (updateLoop (↑ps.length) ps 0 false (-1)).2.2.toNat ≤ ps.length
    · exact ⟨_, hk, rfl⟩
    · refine ⟨ps.length, le_refl _, ?_⟩
      rw [List.drop_of_length_le (by simp; omega), List.drop_of_length_le (by simp)]
  · exact ⟨0, Nat.zero_le _, rfl⟩

/-- C2, as the code has it: every `Time` is decremented (as an `int32`) whatever else
happens.  When no decremented `Time` is `<= 0` nothing is dropped.  Otherwise the
decayed store is `a ++ e ++ q :: r`, where `a` are the alive markers before the first
expired one, `e ++ [q]` starts with the first expired marker, every marker of `e` is
expired, and `q` is alive or the last marker: `q` is the first marker, at or after the
first expired one, that is alive or last, and exactly the markers before `q` are
dropped, the alive ones in `a` included.  For the Times `[5, 0, 3]` the result has the
Times `[2]`. -/
theorem updatePheromones_front_truncation (ps : List Pheromone) :
    (∀ p, (decay p).Time = wrapInt32 (p.Time - 1)) ∧
    ((∀ p ∈ ps.map decay, 0 < p.Time) → updatePheromones ps = ps.map decay) ∧
    ((∃ p ∈ ps.map decay, p.Time ≤ 0) →
      ∃ a e q r, ps.map decay = a ++ e ++ q :: r ∧ (∀ p ∈ a, 0 < p.Time) ∧
        (∀ p ∈ e, p.Time ≤ 0) ∧ (e ≠ [] ∨ q.Time ≤ 0) ∧ (0 < q.Time ∨ r = []) ∧
        updatePheromones ps = q :: r) ∧
    (updatePheromones [spotAt 0 0 5, spotAt 0 0 0, spotAt 0 0 3]).map Pheromone.Time = [2] := by
  refine ⟨fun p => rfl, ?_, ?_, ?_⟩
  · intro h
    have hflag := updateLoop_all_alive (ps.length : Int) ps 0 h
    simp [updatePheromones, hflag, updateLoop_fst]
  · intro h
    obtain ⟨a, e, q, r, hmap, ha, he, hne, hq, hflag, hix⟩ := updateLoop_first_expired ps 0 h
    refine ⟨a, e, q, r, hmap, ha, he, hne, hq, ?_⟩
    have e0 : ((0 + ps.length : Nat) : Int) = (ps.length : Int) := by simp
    have e1 : ((0 : Nat) : Int) = 0 := rfl
    rw [e0, e1] at hflag hix
    unfold updatePheromones
    simp only [hflag, hix, updateLoop_fst, hmap]
    have hpos : decide (((0 + (a.length + e.length) : Nat) : Int) > -1) = true := by
      simp only [decide_eq_true_eq]; omega
    simp only [hpos, Bool.and_self, if_true, Int.toNat_ofNat, Nat.zero_add]
    rw [← List.length_append, List.drop_left]
    have hgt : ((a ++ e).length : Int) > -1 := by omega
    rw [if_pos (by simpa using hgt)]
  · simp [updatePheromones, updateLoop, updateSpot, decay, spotAt, wrapInt32]

/-- C2, against the claim: on the store with Times `[5, 0, 3]` one tick leaves a single
marker, with Time `2`; the markers at index 0 (alive, Time 4) and 1 are removed, so the
Times are not `[4, -1, 2]`. -/
theorem updatePheromones_5_0_3 :
    (updatePheromones [spotAt 0 0 5, spotAt 0 0 0, spotAt 0 0 3]).map Pheromone.Time = [2] ∧
    (updatePheromones [spotAt 0 0 5, spotAt 0 0 0, spotAt 0 0 3]).map Pheromone.Time ≠
      [4, -1, 2] := by
  constructor <;> simp [updatePheromones, updateLoop, updateSpot, decay, spotAt, wrapInt32]

/-- C3, evaluated on the code: a store that holds one marker with `Time = 1` still holds
that marker after the tick, with `Time = 0`: the last marker is never dropped. -/
theorem updatePheromones_keeps_last_expired :
    updatePheromones [spotAt 300 400 1] =
      [{ spotAt 300 400 1 with Time := 0, Size := Flt.fin 0 }] ∧
    ∃ p ∈ updatePheromones [spotAt 300 400 1], p.Time ≤ 0 := by
  have h : updatePheromones [spotAt 300 400 1] =
      [{ spotAt 300 400 1 with Time := 0, Size := Flt.fin 0 }] := by
    norm_num [updatePheromones, updateLoop, updateSpot, decay, spotAt, wrapInt32, scale, curve,
      normalize, Flt.ofInt, Flt.sub, Flt.add, Flt.neg, Flt.mul, Flt.div, Flt.min, Flt.lt,
      PheromoneMaxTime, PheromoneMaxRange, FPS]
  refine ⟨h, ?_⟩
  rw [h]
  exact ⟨_, List.mem_singleton.mpr rfl, le_refl _⟩

/-- C4, against the claim: `Time` is an `int32` and `Time--` wraps around, so a marker
with the least `int32` value as its `Time` comes out of the tick with the greatest one,
not with one less. -/
theorem updatePheromones_wraps_at_min :
    (updatePheromones [spotAt 0 0 (-2147483648)]).map Pheromone.Time = [2147483647] := by
  simp [updatePheromones, updateLoop, updateSpot, decay, spotAt, wrapInt32]

/-- C4, as the code has it: when every `Time` of the store is an `int32` value other than
the least one, the store after `updatePheromones` is the store before the call without
its first `k` markers, in the same order, each with the same `Position` and `AntId` and
with `Time` exactly one less. -/
theorem updatePheromones_suffix_decremented (ps : List Pheromone)
    (h : ∀ p ∈ ps, -2147483648 < p.Time ∧ p.Time < 2147483648) :
    ∃ k, k ≤ ps.length ∧
      List.Forall₂
        (fun q p => q.Position = p.Position ∧ q.AntId = p.AntId ∧ q.Time = p.Time - 1)
        (updatePheromones ps) (ps.drop k) := by
  obtain ⟨k, hk, hdrop⟩ := updatePheromones_eq_drop ps
  refine ⟨k, hk, ?_⟩
  rw [hdrop, ← List.map_drop, List.forall₂_map_left_iff]
  apply List.forall₂_same.mpr
  intro p hp
  have hb := h p (List.mem_of_mem_drop hp)
  refine ⟨rfl, rfl, ?_⟩
  show wrapInt32 (p.Time - 1) = p.Time - 1
  unfold wrapInt32
  omega

/-- The amended C4 on the store with Times `[5, 0, 3]`. -/
theorem updatePheromones_suffix_decremented_witness :
    ∃ k, k ≤ [spotAt 0 0 5, spotAt 0 0 0, spotAt 0 0 3].length ∧
      List.Forall₂
        (fun q p => q.Position = p.Position ∧ q.AntId = p.AntId ∧ q.Time = p.Time - 1)
        (updatePheromones [spotAt 0 0 5, spotAt 0 0 0, spotAt 0 0 3])
        ([spotAt 0 0 5, spotAt 0 0 0, spotAt 0 0 3].drop k) :=
  updatePheromones_suffix_decremented [spotAt 0 0 5, spotAt 0 0 0, spotAt 0 0 3]
    (by simp [spotAt])

/-! ## The steering cone -/

/-- Inside a positive influence range `normalize` is the plain quotient, and the angle
is the linear interpolation between the two bounds. -/
theorem focusAngle_inside (R d : ℚ) (hR : 0 < R) (hd : d ≤ R) :
    focusAngle (Flt.fin d) (Flt.fin R) = Flt.fin (d / R * (270 - 5) + 5) := by
  have hR0 : (R - 0) ≠ 0 := by simpa using hR.ne.symm
  have hq : min ((d - 0) / (R - 0)) 1 = d / R := by
    rw [sub_zero, sub_zero]
    exact min_eq_left ((div_le_one hR).mpr hd)
  simp only [focusAngle, curve, normalize, scale, MinAntAngle, MaxAntAngle, flt_sub_fin,
    flt_div_fin _ _ hR0, flt_min_fin, flt_mul_fin, flt_add_fin, hq]

/-- A zero influence range and a positive distance: the quotient is `+Inf`, `normalize`
gives 1 and the angle is 270. -/
theorem focusAngle_zero_range_pos (q : ℚ) (hq : 0 < q) :
    Flt.div (Flt.sub (Flt.fin q) (Flt.fin 0)) (Flt.sub (Flt.ofInt 0) (Flt.fin 0)) = Flt.pinf ∧
    normalize (Flt.fin q) (Flt.fin 0) (Flt.ofInt 0) = Flt.fin 1 ∧
    focusAngle (Flt.fin q) (Flt.ofInt 0) = Flt.fin 270 := by
  have h0 : ¬ q = 0 := hq.ne.symm
  norm_num [focusAngle, scale, curve, normalize, Flt.min, Flt.div, Flt.sub, Flt.add,
    Flt.mul, Flt.neg, Flt.lt, MinAntAngle, MaxAntAngle, Flt.signedInf, Flt.ofInt, h0, hq]

/-- C5, against the claim: for the distance 70 and a zero influence range the angle is
`MaxAntAngle` (270), not `MinAntAngle` (5). -/
theorem focusAngle_zero_range_at_70 :
    focusAngle (Flt.fin 70) (Flt.ofInt 0) = MaxAntAngle ∧
    focusAngle (Flt.fin 70) (Flt.ofInt 0) ≠ MinAntAngle := by
  constructor <;>
    norm_num [focusAngle, scale, curve, normalize, Flt.min, Flt.div, Flt.sub, Flt.add, Flt.mul,
      Flt.neg, Flt.lt, MinAntAngle, MaxAntAngle, Flt.signedInf, Flt.ofInt]

/-- C5, as the code has it: for every distance `d >= 70` (infinite ones included) and a
zero influence range, `normalize` is not special-cased: the division by zero is carried
out and gives `+Inf`, which `min` turns into 1, and `focusAngle(d, 0)` is `MaxAntAngle`
(270): the widest cone. -/
theorem focusAngle_zero_range (d : Flt) (h : Flt.le (Flt.fin 70) d = true) :
    Flt.div (Flt.sub d (Flt.fin 0)) (Flt.sub (Flt.ofInt 0) (Flt.fin 0)) = Flt.pinf ∧
    normalize d (Flt.fin 0) (Flt.ofInt 0) = Flt.fin 1 ∧
    focusAngle d (Flt.ofInt 0) = MaxAntAngle := by
  cases d with
  | fin q =>
      have hq : (70 : ℚ) ≤ q := by simpa [Flt.le] using h
      exact focusAngle_zero_range_pos q (by linarith)
  | pinf =>
      norm_num [focusAngle, scale, curve, normalize, Flt.min, Flt.div, Flt.sub, Flt.add,
        Flt.mul, Flt.neg, Flt.lt, MinAntAngle, MaxAntAngle, Flt.signedInf, Flt.ofInt]
  | ninf => simp [Flt.le] at h
  | nan => simp [Flt.le] at h

/-- The amended C5 at the distance 70. -/
theorem focusAngle_zero_range_witness :
    Flt.le (Flt.fin 70) (Flt.fin 70) = true ∧
    Flt.div (Flt.sub (Flt.fin 70) (Flt.fin 0)) (Flt.sub (Flt.ofInt 0) (Flt.fin 0)) = Flt.pinf ∧
    normalize (Flt.fin 70) (Flt.fin 0) (Flt.ofInt 0) = Flt.fin 1 ∧
    focusAngle (Flt.fin 70) (Flt.ofInt 0) = MaxAntAngle :=
  ⟨by simp [Flt.le], focusAngle_zero_range (Flt.fin 70) (by simp [Flt.le])⟩

/-- C6: for an influence range `R > 0` and distances `0 <= d1 <= d2 <= R` the angle is
non-decreasing in the distance and lies between `MinAntAngle` (5) and `MaxAntAngle`
(270), where `focusAngle(d, R) = scale(curve(normalize(d, 0, R)), 5, 270)`; and
`focusAngle(100, 250) = 111`. -/
theorem focusAngle_monotone_bounded (R d1 d2 : ℚ) (hR : 0 < R) (h0 : 0 ≤ d1) (h12 : d1 ≤ d2)
    (h2 : d2 ≤ R) :
    Flt.le (focusAngle (Flt.fin d1) (Flt.fin R)) (focusAngle (Flt.fin d2) (Flt.fin R)) = true ∧
    Flt.le MinAntAngle (focusAngle (Flt.fin d1) (Flt.fin R)) = true ∧
    Flt.le (focusAngle (Flt.fin d1) (Flt.fin R)) MaxAntAngle = true ∧
    Flt.le MinAntAngle (focusAngle (Flt.fin d2) (Flt.fin R)) = true ∧
    Flt.le (focusAngle (Flt.fin d2) (Flt.fin R)) MaxAntAngle = true ∧
    focusAngle (Flt.fin d2) (Flt.fin R) =
      scale (curve (normalize (Flt.fin d2) (Flt.fin 0) (Flt.fin R))) (Flt.fin 5) (Flt.fin 270) ∧
    focusAngle (Flt.fin 100) (Flt.fin 250) = Flt.fin 111 := by
  have hd1 : d1 ≤ R := le_trans h12 h2
  have hd2 : 0 ≤ d2 := le_trans h0 h12
  rw [focusAngle_inside R d1 hR hd1, focusAngle_inside R d2 hR h2]
  have q1 : 0 ≤ d1 / R := div_nonneg h0 hR.le
  have q2 : 0 ≤ d2 / R := div_nonneg hd2 hR.le
  have r1 : d1 / R ≤ 1 := (div_le_one hR).mpr hd1
  have r2 : d2 / R ≤ 1 := (div_le_one hR).mpr h2
  have m : d1 / R ≤ d2 / R := div_le_div_of_nonneg_right h12 hR.le
  refine ⟨?_, ?_, ?_, ?_, ?_, ?_, ?_⟩
  · simp only [Flt.le, decide_eq_true_eq]; nlinarith
  · simp only [MinAntAngle, Flt.le, decide_eq_true_eq]; nlinarith
  · simp only [MaxAntAngle, Flt.le, decide_eq_true_eq]; nlinarith
  · simp only [MinAntAngle, Flt.le, decide_eq_true_eq]; nlinarith
  · simp only [MaxAntAngle, Flt.le, decide_eq_true_eq]; nlinarith
  · rw [← focusAngle_inside R d2 hR h2]; rfl
  · rw [focusAngle_inside 250 100 (by norm_num) (by norm_num)]; norm_num

/-- C6 at `R = 250`, `d1 = 100`, `d2 = 200`. -/
theorem focusAngle_monotone_bounded_witness :
    Flt.le (focusAngle (Flt.fin 100) (Flt.fin 250)) (focusAngle (Flt.fin 200) (Flt.fin 250)) = true ∧
    Flt.le MinAntAngle (focusAngle (Flt.fin 100) (Flt.fin 250)) = true ∧
    Flt.le (focusAngle (Flt.fin 100) (Flt.fin 250)) MaxAntAngle = true ∧
    Flt.le MinAntAngle (focusAngle (Flt.fin 200) (Flt.fin 250)) = true ∧
    Flt.le (focusAngle (Flt.fin 200) (Flt.fin 250)) MaxAntAngle = true ∧
    focusAngle (Flt.fin 200) (Flt.fin 250) =
      scale (curve (normalize (Flt.fin 200) (Flt.fin 0) (Flt.fin 250))) (Flt.fin 5) (Flt.fin 270) ∧
    focusAngle (Flt.fin 100) (Flt.fin 250) = Flt.fin 111 :=
  focusAngle_monotone_bounded 250 100 200 (by norm_num) (by norm_num) (by norm_num) (by norm_num)

/-! ## Trail following -/

/-- The scan of the marker store in `moveAnt`, entered with the bound `m` and the target
`t`: when no marker of the window has a `Time` below `m` the target is unchanged;
otherwise the target is the position of a marker of the window whose `Time` is below `m`
and least among the markers of the window, with `Range` (and `Size`) 0. -/
theorem scanPheromones_spec (ant : Ant) (ps : List Pheromone) (m : Int) (t : Target) :
    ((∀ p ∈ ps, nearSpot ant p = true → m ≤ p.Time) → scanPheromones ant ps m t = (m, t)) ∧
    ((∃ p ∈ ps, nearSpot ant p = true ∧ p.Time < m) →
      ∃ p ∈ ps, nearSpot ant p = true ∧ p.Time < m ∧
        (∀ x ∈ ps, nearSpot ant x = true → p.Time ≤ x.Time) ∧
        scanPheromones ant ps m t = (p.Time, { Position := p.Position, Size := 0, Range := 0 })) := by
  induction ps generalizing m t with
  | nil => simp [scanPheromones]
  | cons p rest ih =>
      by_cases hp : nearSpot ant p = true ∧ p.Time < m
      · have hstep : scanPheromones ant (p :: rest) m t =
            scanPheromones ant rest p.Time { Position := p.Position, Size := 0, Range := 0 } := by
          simp [scanPheromones, hp.1, hp.2]
        constructor
        · intro h
          exact absurd (h p (List.mem_cons_self _ _) hp.1) (not_le.mpr hp.2)
        · intro _
          by_cases hr : ∃ x ∈ rest, nearSpot ant x = true ∧ x.Time < p.Time
          · obtain ⟨x, hx, hxn, hxt, hmin, hres⟩ := (ih p.Time _).2 hr
            refine ⟨x, List.mem_cons_of_mem _ hx, hxn, lt_trans hxt hp.2, ?_, ?_⟩
            · intro y hy hyn
              rcases List.mem_cons.mp hy with rfl | hy
              · exact hxt.le
              · exact hmin y hy hyn
            · rw [hstep, hres]
          · have hall : ∀ x ∈ rest, nearSpot ant x = true → p.Time ≤ x.Time := by
              intro x hx hxn
              by_contra hlt
              exact hr ⟨x, hx, hxn, not_le.mp hlt⟩
            refine ⟨p, List.mem_cons_self _ _, hp.1, hp.2, ?_, ?_⟩
            · intro y hy hyn
              rcases List.mem_cons.mp hy with rfl | hy
              · exact le_refl _
              · exact hall y hy hyn
            · rw [hstep, (ih p.Time _).1 hall]
      · have hstep : scanPheromones ant (p :: rest) m t = scanPheromones ant rest m t := by
          by_cases hn : nearSpot ant p = true
          · have : ¬ p.Time < m := fun hlt => hp ⟨hn, hlt⟩
            simp [scanPheromones, this]
          · simp [scanPheromones, hn]
        constructor
        · intro h
          rw [hstep]
          exact (ih m t).1 (fun x hx hxn => h x (List.mem_cons_of_mem _ hx) hxn)
        · intro h
          have hr : ∃ x ∈ rest, nearSpot ant x = true ∧ x.Time < m := by
            obtain ⟨x, hx, hxn, hxt⟩ := h
            rcases List.mem_cons.mp hx with rfl | hx
            · exact absurd ⟨hxn, hxt⟩ hp
            · exact ⟨x, hx, hxn, hxt⟩
          obtain ⟨x, hx, hxn, hxt, hmin, hres⟩ := (ih m t).2 hr
          refine ⟨x, List.mem_cons_of_mem _ hx, hxn, hxt, ?_, ?_⟩
          · intro y hy hyn
            rcases List.mem_cons.mp hy with rfl | hy
            · by_contra hlt
              exact hp ⟨hyn, lt_of_lt_of_le (not_le.mp hlt) (le_of_lt hxt)⟩
            · exact hmin y hy hyn
          · rw [hstep, hres]

/-- The effective target of `moveAnt`: the agent keeps its own target when it carries
food, when the store holds at most one marker, when it is not farther from its target
than the target's `Range`, and when no marker of the window has a `Time` below
`PheromoneMaxTime`; otherwise the target is the position of a marker of the window with
the least `Time`, with `Range` 0. -/
theorem effectiveTarget_spec (ant : Ant) (ps : List Pheromone) (dist : Flt) :
    (ant.HasFood = true → effectiveTarget ant ps dist = ant.Target) ∧
    (ps.length ≤ 1 → effectiveTarget ant ps dist = ant.Target) ∧
    (Flt.gt dist (Flt.ofInt ant.Target.Range) = false → effectiveTarget ant ps dist = ant.Target) ∧
    ((∀ p ∈ ps, nearSpot ant p = true → PheromoneMaxTime ≤ p.Time) →
      effectiveTarget ant ps dist = ant.Target) ∧
    (ant.HasFood = false → 1 < ps.length → Flt.gt dist (Flt.ofInt ant.Target.Range) = true →
      (∃ p ∈ ps, nearSpot ant p = true ∧ p.Time < PheromoneMaxTime) →
      ∃ p ∈ ps, nearSpot ant p = true ∧ (∀ x ∈ ps, nearSpot ant x = true → p.Time ≤ x.Time) ∧
        effectiveTarget ant ps dist = { Position := p.Position, Size := 0, Range := 0 }) := by
  refine ⟨?_, ?_, ?_, ?_, ?_⟩
  · intro h; simp [effectiveTarget, h]
  · intro h
    have : ¬ 1 < ps.length := by omega
    simp [effectiveTarget, this]
  · intro h; simp [effectiveTarget, h]
  · intro h
    unfold effectiveTarget
    split
    · rw [(scanPheromones_spec ant ps PheromoneMaxTime ant.Target).1 h]
    · rfl
  · intro hf hl hd hex
    obtain ⟨p, hp, hpn, _, hmin, hres⟩ :=
      (scanPheromones_spec ant ps PheromoneMaxTime ant.Target).2 hex
    refine ⟨p, hp, hpn, hmin, ?_⟩
    simp [effectiveTarget, hf, hl, hd, hres]

theorem sqrt_1000000 : Nat.sqrt 1000000 = 1000 := by
  symm; rw [Nat.eq_sqrt]; norm_num

theorem sqrt_19600 : Nat.sqrt 19600 = 140 := by
  symm; rw [Nat.eq_sqrt]; norm_num

/-- C7, evaluated on the code: an agent without food at `(1000, 1000)`, 1000 away from
its food source of `Range` 250, sees a store of two markers; the one at `(1010, 1010)`
lies in the proximity window and was dropped in this frame, so its `Time` is still
`PheromoneMaxTime` (1800).  The scan starts from `minTime = PheromoneMaxTime` and
compares with `<`, so this marker is passed over: the effective target is the agent's
own target, not the marker. -/
theorem effectiveTarget_ignores_fresh_marker :
    distance compassMath (foodAt 2000 1000 250).Position
        (seeker 3 1000 1000 (foodAt 2000 1000 250)).Position = Flt.fin 1000 ∧
    nearSpot (seeker 3 1000 1000 (foodAt 2000 1000 250)) (spotAt 1010 1010 1800) = true ∧
    nearSpot (seeker 3 1000 1000 (foodAt 2000 1000 250)) (spotAt 200 300 1700) = false ∧
    effectiveTarget (seeker 3 1000 1000 (foodAt 2000 1000 250))
        [spotAt 200 300 1700, spotAt 1010 1010 1800] (Flt.fin 1000) =
      foodAt 2000 1000 250 := by
  refine ⟨?_, ?_, ?_, ?_⟩
  · norm_num [distance, compassMath, seeker, foodAt, flt_sub_fin, flt_mul_fin, flt_add_fin,
      sqrt_1000000]
  · norm_num [nearSpot, seeker, spotAt, flt_sub_fin, Flt.abs, Flt.lt, abs_lt]
  · norm_num [nearSpot, seeker, spotAt, flt_sub_fin, Flt.abs, Flt.lt, abs_lt]
  · norm_num [effectiveTarget, scanPheromones, nearSpot, seeker, spotAt, foodAt, flt_sub_fin,
      Flt.abs, Flt.lt, Flt.gt, Flt.ofInt, abs_lt, PheromoneMaxTime, FPS]

/-! ## Reset -/

theorem initAnts_length (R : Rand) (target nest : Target) (n i cur : Nat) :
    (initAnts R target nest n i cur).1.length = n := by
  induction n generalizing i cur with
  | zero => rfl
  | succ n ih => simp [initAnts, ih]

theorem initAnts_ids (R : Rand) (target nest : Target) (n i cur : Nat) :
    (initAnts R target nest n i cur).1.map Ant.Id = List.range' i n := by
  induction n generalizing i cur with
  | zero => rfl
  | succ n ih => simp [initAnts, ih, List.range'_succ]

theorem initAnts_fresh (R : Rand) (target nest : Target) (n i cur : Nat) :
    ∀ a ∈ (initAnts R target nest n i cur).1,
      a.Position = nest.Position ∧ a.HasFood = false ∧ a.Path = [] ∧ a.Target = target := by
  induction n generalizing i cur with
  | zero => simp [initAnts]
  | succ n ih =>
      intro a ha
      simp only [initAnts, List.mem_cons] at ha
      rcases ha with rfl | ha
      · exact ⟨rfl, rfl, rfl, rfl⟩
      · exact ih _ _ a ha

/-- C8, against the claim: `initPoints` does not touch the marker store; a store that
holds a marker before the reset holds it afterwards. -/
theorem initPoints_keeps_markers :
    (initPoints zeroRand 0 { World.start with pheromones := [spotAt 5 5 100] }).1.pheromones =
      [spotAt 5 5 100] ∧
    (initPoints zeroRand 0 { World.start with pheromones := [spotAt 5 5 100] }).1.pheromones ≠
      [] := by
  constructor <;> simp [initPoints]

/-- C8, as the code has it: after `initPoints` the marker store is what it was before,
and there are exactly `AntCount` (20) agents with the ids 0..19, each with `Position =
nest.Position`, `HasFood = false`, an empty `Path` and `Target` = the food source (the
global `target` with its new position; its `Range` is the one from before the reset). -/
theorem initPoints_spec (R : Rand) (cur : Nat) (w : World) :
    (initPoints R cur w).1.pheromones = w.pheromones ∧
    (initPoints R cur w).1.ants.length = 20 ∧
    (initPoints R cur w).1.ants.map Ant.Id = List.range 20 ∧
    (∀ a ∈ (initPoints R cur w).1.ants,
      a.Position = (initPoints R cur w).1.nest.Position ∧ a.HasFood = false ∧ a.Path = [] ∧
      a.Target = (initPoints R cur w).1.target) ∧
    (initPoints R cur w).1.target.Range = w.target.Range := by
  refine ⟨rfl, ?_, ?_, ?_, rfl⟩
  · simp [initPoints, initAnts_length, AntCount]
  · simp only [initPoints, initAnts_ids, AntCount, List.range_eq_range']
  · intro a ha
    exact initAnts_fresh _ _ _ _ _ _ a ha

/-! ## The resampling loop -/

theorem retryAngle_shift (R : Rand) (lo hi : Flt) (cur : Nat) (a0 : Flt) (j : Nat) :
    retryAngle R lo hi (cur + 1) (scale (R.Float32 cur) lo hi) j =
      retryAngle R lo hi cur a0 (j + 1) := by
  cases j with
  | zero => rfl
  | succ j =>
      simp only [retryAngle]
      rw [show cur + 1 + j = cur + (j + 1) by omega]

/-- The loop returns exactly at the first angle whose point is in bounds, if that angle
comes within the iterations that are run. -/
theorem resample_iff (M : MathFns) (R : Rand) (pos : Point) (lo hi : Flt) (fuel cur : Nat)
    (a0 : Flt) (t : Point) (c : Nat) :
    resample M R pos lo hi fuel cur a0 = some (t, c) ↔
      ∃ k, k < fuel ∧ c = cur + k ∧
        t = extendLine M pos (retryAngle R lo hi cur a0 k) StepLength ∧ inBounds t = true ∧
        ∀ j, j < k →
          inBounds (extendLine M pos (retryAngle R lo hi cur a0 j) StepLength) = false := by
  induction fuel generalizing cur a0 with
  | zero => simp [resample]
  | succ fuel ih =>
      by_cases hin : inBounds (extendLine M pos a0 StepLength) = true
      · simp only [resample, hin, if_true, Option.some.injEq, Prod.mk.injEq]
        constructor
        · rintro ⟨rfl, rfl⟩
          exact ⟨0, Nat.succ_pos _, rfl, rfl, hin, fun j hj => absurd hj (Nat.not_lt_zero j)⟩
        · rintro ⟨k, _, hc, ht, _, hall⟩
          cases k with
          | zero => exact ⟨ht.symm, by omega⟩
          | succ k =>
              have h0 := hall 0 (Nat.succ_pos _)
              simp only [retryAngle] at h0
              rw [hin] at h0
              exact absurd h0 (by simp)
      · have hout : inBounds (extendLine M pos a0 StepLength) = false := by
          simpa using hin
        simp only [resample, hout, Bool.false_eq_true, if_false]
        rw [ih]
        constructor
        · rintro ⟨k, hk, hc, ht, hb, hall⟩
          refine ⟨k + 1, by omega, by omega, ?_, hb, ?_⟩
          · rw [← retryAngle_shift]; exact ht
          · intro j hj
            cases j with
            | zero => exact hout
            | succ j =>
                rw [← retryAngle_shift]
                exact hall j (by omega)
        · rintro ⟨k, hk, hc, ht, hb, hall⟩
          cases k with
          | zero =>
              simp only [retryAngle] at ht
              rw [ht, hout] at hb
              exact absurd hb (by simp)
          | succ k =>
              refine ⟨k, by omega, by omega, ?_, hb, ?_⟩
              · rw [retryAngle_shift R lo hi cur a0]; exact ht
              · intro j hj
                rw [retryAngle_shift R lo hi cur a0]
                exact hall (j + 1) (by omega)

/-- C10, as the code has it: the resampling loop has no retry cap and does not clamp.
For every agent position, cone and sequence of draws it returns exactly when, and where,
the first angle comes whose point is in bounds, after as many resamples as there were
points out of bounds before, and it returns that point as it is; when every point is
out of bounds it does not end, however many iterations are run. -/
theorem resample_ends_at_first_in_bounds (M : MathFns) (R : Rand) (pos : Point) (lo hi : Flt)
    (cur : Nat) (a0 : Flt) :
    (∀ fuel t c, resample M R pos lo hi fuel cur a0 = some (t, c) ↔
      ∃ k, k < fuel ∧ c = cur + k ∧
        t = extendLine M pos (retryAngle R lo hi cur a0 k) StepLength ∧ inBounds t = true ∧
        ∀ j, j < k →
          inBounds (extendLine M pos (retryAngle R lo hi cur a0 j) StepLength) = false) ∧
    ((∀ j, inBounds (extendLine M pos (retryAngle R lo hi cur a0 j) StepLength) = false) →
      ∀ fuel, resample M R pos lo hi fuel cur a0 = none) := by
  refine ⟨fun fuel t c => resample_iff M R pos lo hi fuel cur a0 t c, ?_⟩
  intro hall fuel
  cases hres : resample M R pos lo hi fuel cur a0 with
  | none => rfl
  | some tc =>
      obtain ⟨k, _, _, ht, hb, _⟩ := (resample_iff M R pos lo hi fuel cur a0 tc.1 tc.2).mp hres
      rw [ht, hall k] at hb
      exact absurd hb (by simp)

/-! ## An agent 140 to the left of a food source of `Range` 212 -/

theorem distance_140 (y : ℚ) :
    distance compassMath (foodAt 640 y 212).Position (seeker 0 500 y (foodAt 640 y 212)).Position =
      Flt.fin 140 := by
  norm_num [distance, compassMath, seeker, foodAt, flt_sub_fin, flt_mul_fin, flt_add_fin,
    sqrt_19600]

theorem cone_140 (y : ℚ) :
    cone compassMath (seeker 0 500 y (foodAt 640 y 212)).Position (foodAt 640 y 212)
      (Flt.fin 140) = (Flt.fin (-(355 / 226)), Flt.fin (355 / 226)) := by
  have hf : focusAngle (Flt.fin 140) (Flt.ofInt (foodAt 640 y 212).Range) = Flt.fin 180 := by
    have := focusAngle_inside 212 140 (by norm_num) (by norm_num)
    simp only [foodAt, Flt.ofInt]
    norm_num at this ⊢
    exact this
  have hb : angleRads compassMath (foodAt 640 y 212).Position
      (seeker 0 500 y (foodAt 640 y 212)).Position = Flt.fin 0 := by
    norm_num [angleRads, compassMath, seeker, foodAt, flt_sub_fin]
  have hpi : compassMath.Pi = Flt.fin (355 / 113) := rfl
  simp only [cone, hf, hb, rad2Deg, deg2Rad, hpi, flt_mul_fin, flt_sub_fin, flt_add_fin,
    flt_div_fin _ _ (by norm_num : (355 / 113 : ℚ) ≠ 0),
    flt_div_fin _ _ (by norm_num : (2 : ℚ) ≠ 0),
    flt_div_fin _ _ (by norm_num : (180 : ℚ) ≠ 0), flt_min_fin, flt_max_fin]
  norm_num

theorem first_angle_140 (n : Nat) :
    scale (zeroRand.Float32 n) (Flt.fin (-(355 / 226))) (Flt.fin (355 / 226)) =
      Flt.fin (-(355 / 226)) := by
  norm_num [scale, zeroRand, flt_sub_fin, flt_mul_fin, flt_add_fin]

theorem candidate_140 (y : ℚ) :
    extendLine compassMath (seeker 0 500 y (foodAt 640 y 212)).Position
      (Flt.fin (-(355 / 226))) StepLength = ⟨Flt.fin 500, Flt.fin (y - 70)⟩ := by
  norm_num [extendLine, compassMath, seeker, StepLength, flt_mul_fin, flt_add_fin]
  ring

theorem moveAnt_140 (y : ℚ) (fuel : Nat) :
    moveAnt compassMath zeroRand fuel 0 [] (seeker 0 500 y (foodAt 640 y 212)) 12
        (Flt.fin (1 / 60)) =
      match resample compassMath zeroRand (seeker 0 500 y (foodAt 640 y 212)).Position
          (Flt.fin (-(355 / 226))) (Flt.fin (355 / 226)) fuel 1 (Flt.fin (-(355 / 226))) with
      | none => none
      | some (t, cur1) =>
          some ({ seeker 0 500 y (foodAt 640 y 212) with NextPosition := t }, [], cur1) := by
  have hframe : (12 : Int) % (FPS / PheromoneFreq) = 0 := by decide
  have hfar : ¬ Flt.lt (Flt.fin 140) StepLength = true := by norm_num [Flt.lt, StepLength]
  have heff : effectiveTarget (seeker 0 500 y (foodAt 640 y 212)) [] (Flt.fin 140) =
      foodAt 640 y 212 := by
    simp [effectiveTarget, seeker]
  have htgt : (seeker 0 500 y (foodAt 640 y 212)).Target = foodAt 640 y 212 := rfl
  unfold moveAnt
  rw [if_pos hframe]
  simp only [htgt, distance_140, if_neg hfar, heff, cone_140, first_angle_140, zero_add]
  cases resample compassMath zeroRand (seeker 0 500 y (foodAt 640 y 212)).Position
      (Flt.fin (-(355 / 226))) (Flt.fin (355 / 226)) fuel 1 (Flt.fin (-(355 / 226))) with
  | none => rfl
  | some tc => simp [recordStep, seeker]

/-- C10, against the claim: an agent at `(500, 30)`, 140 to the left of its food source
of `Range` 212, has the cone of 180 degrees around the bearing 0; with draws that are
all 0 every angle is the lower end of the cone, straight up, and every candidate is
`(500, -40)`, out of bounds.  The loop resamples for ever: `moveAnt` does not return,
however many iterations are run, and nothing is clamped. -/
theorem moveAnt_resamples_for_ever :
    ¬ ∃ fuel, (moveAnt compassMath zeroRand fuel 0 [] (seeker 0 500 30 (foodAt 640 30 212)) 12
        (Flt.fin (1 / 60))).isSome = true := by
  have hloop : ∀ fuel cur, resample compassMath zeroRand
      (seeker 0 500 30 (foodAt 640 30 212)).Position (Flt.fin (-(355 / 226)))
      (Flt.fin (355 / 226)) fuel cur (Flt.fin (-(355 / 226))) = none := by
    intro fuel
    induction fuel with
    | zero => intro cur; rfl
    | succ fuel ih =>
        intro cur
        have hout : inBounds (⟨Flt.fin 500, Flt.fin (30 - 70)⟩ : Point) = false := by
          norm_num [inBounds, Flt.ge, Flt.le, Flt.lt, Width, Height]
        simp only [resample, candidate_140, hout, Bool.false_eq_true, if_false, first_angle_140]
        exact ih (cur + 1)
  rintro ⟨fuel, h⟩
  rw [moveAnt_140, hloop] at h
  simp at h

/-! ## The next position lies in the world -/

theorem point_isFin_iff (p : Point) : p.isFin = true ↔ ∃ x y, p = ⟨Flt.fin x, Flt.fin y⟩ := by
  obtain ⟨X, Y⟩ := p
  cases X <;> cases Y <;> simp [Point.isFin, Flt.isFin]

theorem inWorld_isFin (p : Point) (h : inWorld p) : p.isFin = true := by
  obtain ⟨X, Y⟩ := p
  obtain ⟨h1, h2, h3, h4⟩ := h
  cases X <;> cases Y <;> simp_all [Point.isFin, Flt.isFin, Flt.le, Flt.lt, Width, Height]

theorem inWorld_of_inBounds (x y : ℚ) (h : inBounds ⟨Flt.fin x, Flt.fin y⟩ = true) :
    inWorld ⟨Flt.fin x, Flt.fin y⟩ := by
  simp only [inBounds, Flt.ge, Flt.le, Flt.lt, Width, Height, Bool.not_eq_true',
    Bool.or_eq_false_iff, decide_eq_false_iff_not, not_le, not_lt] at h
  obtain ⟨⟨⟨h1, h2⟩, h3⟩, h4⟩ := h
  simp only [inWorld, Flt.le, Flt.lt, Width, Height, decide_eq_true_eq]
  exact ⟨h2, h1, h4, h3⟩

theorem scale_fin (a b c : ℚ) :
    scale (Flt.fin a) (Flt.fin b) (Flt.fin c) = Flt.fin (a * (c - b) + b) := by
  simp only [scale, flt_sub_fin, flt_mul_fin, flt_add_fin]

theorem focusAngle_isFin (r : ℚ) (hr : 70 ≤ r) (n : Int) :
    ∃ q, focusAngle (Flt.fin r) (Flt.ofInt n) = Flt.fin q := by
  by_cases hn : n = 0
  · subst hn
    exact ⟨270, (focusAngle_zero_range_pos r (by linarith)).2.2⟩
  · have hq : ((n : ℚ) - 0) ≠ 0 := by simpa using hn
    apply (flt_isFin_iff _).mp
    simp only [focusAngle, curve, normalize, Flt.ofInt, flt_sub_fin, flt_div_fin _ _ hq,
      flt_min_fin, MinAntAngle, MaxAntAngle, scale_fin, Flt.isFin]

theorem distance_isFin (M : MathFns) (hM : M.Finite) (p q : Point) (hp : p.isFin = true)
    (hq : q.isFin = true) : ∃ r, distance M p q = Flt.fin r := by
  obtain ⟨x1, y1, rfl⟩ := (point_isFin_iff p).mp hp
  obtain ⟨x2, y2, rfl⟩ := (point_isFin_iff q).mp hq
  simp only [distance, flt_sub_fin, flt_mul_fin, flt_add_fin]
  exact (flt_isFin_iff _).mp
    (hM.sqrt_fin _ (add_nonneg (mul_self_nonneg _) (mul_self_nonneg _)))

theorem cone_isFin (M : MathFns) (hM : M.Finite) (pos : Point) (hpos : pos.isFin = true)
    (target : Target) (ht : target.Position.isFin = true) (r : ℚ) (hr : 70 ≤ r) :
    ∃ l h, cone M pos target (Flt.fin r) = (Flt.fin l, Flt.fin h) := by
  obtain ⟨x1, y1, hp⟩ := (point_isFin_iff pos).mp hpos
  obtain ⟨x2, y2, htp⟩ := (point_isFin_iff target.Position).mp ht
  obtain ⟨a, ha⟩ := focusAngle_isFin r hr target.Range
  obtain ⟨b, hb⟩ := (flt_isFin_iff _).mp (hM.atan2_fin (y2 - y1) (x2 - x1))
  obtain ⟨pi, hpi0, hpi⟩ := hM.pi_fin
  have h1 : (cone M pos target (Flt.fin r)).1.isFin = true := by
    simp only [cone, ha, angleRads, hp, htp, flt_sub_fin, hb, rad2Deg, deg2Rad, hpi, flt_mul_fin,
      flt_add_fin, flt_div_fin _ _ hpi0, flt_div_fin _ _ (by norm_num : (2 : ℚ) ≠ 0),
      flt_div_fin _ _ (by norm_num : (180 : ℚ) ≠ 0), flt_min_fin, Flt.isFin]
  have h2 : (cone M pos target (Flt.fin r)).2.isFin = true := by
    simp only [cone, ha, angleRads, hp, htp, flt_sub_fin, hb, rad2Deg, deg2Rad, hpi, flt_mul_fin,
      flt_add_fin, flt_div_fin _ _ hpi0, flt_div_fin _ _ (by norm_num : (2 : ℚ) ≠ 0),
      flt_div_fin _ _ (by norm_num : (180 : ℚ) ≠ 0), flt_max_fin, Flt.isFin]
  obtain ⟨l, hl⟩ := (flt_isFin_iff _).mp h1
  obtain ⟨h, hh⟩ := (flt_isFin_iff _).mp h2
  exact ⟨l, h, Prod.ext hl hh⟩

theorem scanPheromones_target (ant : Ant) (ps : List Pheromone) (m : Int) (t : Target) :
    (scanPheromones ant ps m t).2 = t ∨
      ∃ p ∈ ps, (scanPheromones ant ps m t).2 = { Position := p.Position, Size := 0, Range := 0 } := by
  by_cases h : ∃ p ∈ ps, nearSpot ant p = true ∧ p.Time < m
  · obtain ⟨p, hp, _, _, _, hres⟩ := (scanPheromones_spec ant ps m t).2 h
    exact Or.inr ⟨p, hp, by rw [hres]⟩
  · left
    rw [(scanPheromones_spec ant ps m t).1]
    intro p hp hn
    by_contra hlt
    exact h ⟨p, hp, hn, not_le.mp hlt⟩

theorem effectiveTarget_isFin (ant : Ant) (ps : List Pheromone) (dist : Flt)
    (ht : ant.Target.Position.isFin = true) (hps : ∀ p ∈ ps, p.Position.isFin = true) :
    (effectiveTarget ant ps dist).Position.isFin = true := by
  unfold effectiveTarget
  split
  · rcases scanPheromones_target ant ps PheromoneMaxTime ant.Target with h | ⟨p, hp, h⟩
    · rw [h]; exact ht
    · rw [h]; exact hps p hp
  · exact ht

theorem retryAngle_isFin (R : Rand) (hR : ∀ n, (R.Float32 n).isFin = true) (l h : ℚ) (cur : Nat)
    (a0 : ℚ) (k : Nat) : ∃ a, retryAngle R (Flt.fin l) (Flt.fin h) cur (Flt.fin a0) k = Flt.fin a := by
  cases k with
  | zero => exact ⟨a0, rfl⟩
  | succ k =>
      obtain ⟨q, hq⟩ := (flt_isFin_iff _).mp (hR (cur + k))
      exact ⟨q * (h - l) + l, by simp only [retryAngle, hq, scale_fin]⟩

theorem extendLine_isFin (M : MathFns) (hM : M.Finite) (x y a d : ℚ) :
    ∃ u v, extendLine M ⟨Flt.fin x, Flt.fin y⟩ (Flt.fin a) (Flt.fin d) = ⟨Flt.fin u, Flt.fin v⟩ := by
  obtain ⟨c, hc⟩ := (flt_isFin_iff _).mp (hM.cos_fin a)
  obtain ⟨s, hs⟩ := (flt_isFin_iff _).mp (hM.sin_fin a)
  exact ⟨x + d * c, y + d * s, by simp only [extendLine, hc, hs, flt_mul_fin, flt_add_fin]⟩

theorem recordStep_next (ant : Ant) (pheromones : List Pheromone) (t : Point) :
    (recordStep ant pheromones t).1.NextPosition = t := by
  unfold recordStep
  split
  · dsimp only
    split <;> rfl
  · rfl

/-- C9: on a steering frame (`frame % (FPS/PheromoneFreq) == 0`), for an agent at a
finite position whose target lies in the world, finite marker positions and every
sequence of (finite) draws: whenever `moveAnt` returns, the `NextPosition` it has set
satisfies `0 <= X < Width` and `0 <= Y < Height`.  The `math` functions are any functions
that return ordinary numbers on ordinary arguments. -/
theorem moveAnt_nextPosition_inWorld (M : MathFns) (hM : M.Finite) (R : Rand)
    (hR : ∀ n, (R.Float32 n).isFin = true) (fuel cur : Nat) (pheromones : List Pheromone)
    (hps : ∀ p ∈ pheromones, p.Position.isFin = true) (ant : Ant)
    (hpos : ant.Position.isFin = true) (htarget : inWorld ant.Target.Position) (frame : Int)
    (hframe : frame % (FPS / PheromoneFreq) = 0) (dt : Flt) (ant1 : Ant)
    (pheromones1 : List Pheromone) (cur1 : Nat)
    (h : moveAnt M R fuel cur pheromones ant frame dt = some (ant1, pheromones1, cur1)) :
    inWorld ant1.NextPosition := by
  have htfin := inWorld_isFin _ htarget
  obtain ⟨r, hr⟩ := distance_isFin M hM _ _ htfin hpos
  unfold moveAnt at h
  rw [if_pos hframe] at h
  simp only [hr] at h
  by_cases hlt : Flt.lt (Flt.fin r) StepLength = true
  · rw [if_pos hlt] at h
    simp only [Option.some.injEq, Prod.mk.injEq] at h
    rw [← h.1]
    exact htarget
  · rw [if_neg hlt] at h
    have h70 : (70 : ℚ) ≤ r := by simpa [Flt.lt, StepLength] using hlt
    have hefin := effectiveTarget_isFin ant pheromones (Flt.fin r) htfin hps
    obtain ⟨l, hi, hc⟩ := cone_isFin M hM ant.Position hpos _ hefin r h70
    obtain ⟨q0, hq0⟩ := (flt_isFin_iff _).mp (hR cur)
    simp only [hc, hq0, scale_fin] at h
    cases hres : resample M R ant.Position (Flt.fin l) (Flt.fin hi) fuel (cur + 1)
        (Flt.fin (q0 * (hi - l) + l)) with
    | none => rw [hres] at h; simp at h
    | some tc =>
        rw [hres] at h
        simp only [Option.some.injEq, Prod.mk.injEq] at h
        rw [← h.1, recordStep_next]
        obtain ⟨k, _, _, ht, hb, _⟩ := (resample_iff M R _ _ _ _ _ _ tc.1 tc.2).mp hres
        obtain ⟨a, ha⟩ := retryAngle_isFin R hR l hi (cur + 1) (q0 * (hi - l) + l) k
        obtain ⟨x, y, hxy⟩ := (point_isFin_iff _).mp hpos
        obtain ⟨u, v, huv⟩ := extendLine_isFin M hM x y a 70
        rw [ha, hxy] at ht
        have ht2 : tc.1 = ⟨Flt.fin u, Flt.fin v⟩ := by rw [ht]; exact huv
        rw [ht2] at hb ⊢
        exact inWorld_of_inBounds u v hb

theorem compassMath_finite : compassMath.Finite where
  sqrt_fin := by
    intro q hq
    have : ¬ q < 0 := not_lt.mpr hq
    simp [compassMath, this, Flt.isFin]
  atan2_fin := by
    intro a b
    simp only [compassMath]
    split_ifs <;> rfl
  cos_fin := by
    intro a
    simp only [compassMath]
    split_ifs <;> rfl
  sin_fin := by
    intro a
    simp only [compassMath]
    split_ifs <;> rfl
  pi_fin := ⟨355 / 113, by norm_num, rfl⟩

/-- C9 on the agent at `(500, 300)`, 140 to the left of its food source, with draws
that are all 0: `moveAnt` returns at the first candidate, `(500, 230)`. -/
theorem moveAnt_nextPosition_inWorld_witness :
    moveAnt compassMath zeroRand 1 0 [] (seeker 0 500 300 (foodAt 640 300 212)) 12
        (Flt.fin (1 / 60)) =
      some ({ seeker 0 500 300 (foodAt 640 300 212) with
              NextPosition := ⟨Flt.fin 500, Flt.fin 230⟩ }, [], 1) ∧
    inWorld (⟨Flt.fin 500, Flt.fin 230⟩ : Point) := by
  have hin : inBounds (⟨Flt.fin 500, Flt.fin (300 - 70)⟩ : Point) = true := by
    norm_num [inBounds, Flt.ge, Flt.le, Flt.lt, Width, Height]
  have hrun : moveAnt compassMath zeroRand 1 0 [] (seeker 0 500 300 (foodAt 640 300 212)) 12
      (Flt.fin (1 / 60)) =
      some ({ seeker 0 500 300 (foodAt 640 300 212) with
              NextPosition := ⟨Flt.fin 500, Flt.fin 230⟩ }, [], 1) := by
    rw [moveAnt_140]
    simp only [resample, candidate_140, hin, if_true]
    norm_num
  exact ⟨hrun, moveAnt_nextPosition_inWorld compassMath compassMath_finite zeroRand
    (fun _ => rfl) 1 0 [] (by simp) (seeker 0 500 300 (foodAt 640 300 212)) rfl
    (by norm_num [inWorld, seeker, foodAt, Flt.le, Flt.lt, Width, Height]) 12 (by decide)
    (Flt.fin (1 / 60)) _ _ _ hrun⟩

/-! ## Front truncation on an ordered store -/

theorem updatePheromones_all_alive (ps : List Pheromone)
    (h : ∀ p ∈ ps.map decay, 0 < p.Time) : updatePheromones ps = ps.map decay := by
  have hflag := updateLoop_all_alive (ps.length : Int) ps 0 h
  simp [updatePheromones, hflag, updateLoop_fst]

theorem updatePheromones_some_expired (ps : List Pheromone)
    (h : ∃ p ∈ ps.map decay, p.Time ≤ 0) :
    ∃ a e q r, ps.map decay = a ++ e ++ q :: r ∧ (∀ p ∈ a, 0 < p.Time) ∧
      (∀ p ∈ e, p.Time ≤ 0) ∧ (e ≠ [] ∨ q.Time ≤ 0) ∧ (0 < q.Time ∨ r = []) ∧
      updatePheromones ps = q :: r := by
  obtain ⟨a, e, q, r, hmap, ha, he, hne, hq, hflag, hix⟩ := updateLoop_first_expired ps 0 h
  refine ⟨a, e, q, r, hmap, ha, he, hne, hq, ?_⟩
  have e0 : ((0 + ps.length : Nat) : Int) = (ps.length : Int) := by simp
  have e1 : ((0 : Nat) : Int) = 0 := rfl
  rw [e0, e1] at hflag hix
  unfold updatePheromones
  simp only [hflag, hix, updateLoop_fst, hmap]
  have hgt : ((0 + (a.length + e.length) : Nat) : Int) > -1 := by omega
  rw [if_pos (by simpa using hgt)]
  simp only [Int.toNat_ofNat, Nat.zero_add]
  rw [← List.length_append, List.drop_left]

/-- Away from the least `int32` value the decrement is a plain subtraction. -/
theorem decay_time (p : Pheromone) (h : -2147483648 < p.Time ∧ p.Time < 2147483648) :
    (decay p).Time = p.Time - 1 := by
  show wrapInt32 (p.Time - 1) = p.Time - 1
  unfold wrapInt32
  omega

theorem nonDecreasing_decay (ps : List Pheromone) (hs : nonDecreasing ps)
    (hr : ∀ p ∈ ps, -2147483648 < p.Time ∧ p.Time < 2147483648) :
    nonDecreasing (ps.map decay) := by
  unfold nonDecreasing at hs ⊢
  rw [List.pairwise_map]
  refine List.Pairwise.imp_of_mem ?_ hs
  intro a b ha hb hab
  rw [decay_time a (hr a ha), decay_time b (hr b hb)]
  omega

/-- The store that `moveAnt` leaves after its resampling loop is the store it was given,
or that store with one marker appended at the tail, with `Time = PheromoneMaxTime`. -/
theorem recordStep_store (ant : Ant) (ps : List Pheromone) (t : Point) :
    (recordStep ant ps t).2 = ps ∨
      ∃ spot : Pheromone, spot.Time = PheromoneMaxTime ∧ (recordStep ant ps t).2 = ps ++ [spot] := by
  unfold recordStep
  split
  · dsimp only
    split
    · exact Or.inr ⟨_, rfl, rfl⟩
    · exact Or.inl rfl
  · exact Or.inl rfl

theorem nonDecreasing_append (ps : List Pheromone) (spot : Pheromone)
    (hs : nonDecreasing ps) (hb : ∀ p ∈ ps, p.Time ≤ spot.Time) :
    nonDecreasing (ps ++ [spot]) := by
  unfold nonDecreasing at hs ⊢
  rw [List.pairwise_append]
  refine ⟨hs, List.pairwise_singleton _ _, ?_⟩
  intro a ha b hb2
  rw [List.mem_singleton.mp hb2]
  exact hb a ha

theorem updatePheromones_single (p : Pheromone) : updatePheromones [p] = [decay p] := by
  by_cases h : (decay p).Time ≤ 0
  · simp [updatePheromones, updateLoop, updateSpot, h]
  · simp [updatePheromones, updateLoop, updateSpot, h]

theorem updatePheromones_iterate_single (n : Nat) (p : Pheromone) :
    Nat.iterate updatePheromones n [p] = [Nat.iterate decay n p] := by
  induction n with
  | zero => rfl
  | succ n ih =>
      rw [Function.iterate_succ_apply', Function.iterate_succ_apply', ih,
        updatePheromones_single]

theorem decay_iterate_time (n : Nat) (p : Pheromone) (hl : -2147483648 ≤ p.Time - n)
    (hu : p.Time < 2147483648) : (Nat.iterate decay n p).Time = p.Time - n := by
  induction n with
  | zero => simp
  | succ n ih =>
      have hn := ih (by push_cast at hl ⊢; omega)
      rw [Function.iterate_succ_apply', decay_time _ (by rw [hn]; push_cast at hl ⊢; omega), hn]
      push_cast
      omega

/-- On an ordered store without the least `int32` value the code and strict removal
agree. -/
theorem updatePheromones_strict_of_ordered (ps : List Pheromone) (hs : nonDecreasing ps)
    (hr : ∀ p ∈ ps, -2147483648 < p.Time ∧ p.Time < 2147483648) :
    updatePheromones ps = strictRemoval ps := by
  have hd := nonDecreasing_decay ps hs hr
  by_cases h : ∃ p ∈ ps.map decay, p.Time ≤ 0
  · obtain ⟨a, e, q, r, hmap, ha, he, hne, hq, hres⟩ := updatePheromones_some_expired ps h
    have ha0 : a = [] := by
      by_contra hna
      obtain ⟨x, hx⟩ := List.exists_mem_of_ne_nil a hna
      have hex : ∃ y ∈ e ++ q :: r, y.Time ≤ 0 := by
        rcases hne with hne | hq0
        · obtain ⟨y, hy⟩ := List.exists_mem_of_ne_nil e hne
          exact ⟨y, List.mem_append_left _ hy, he y hy⟩
        · exact ⟨q, List.mem_append_right _ (List.mem_cons_self _ _), hq0⟩
      obtain ⟨y, hy, hy0⟩ := hex
      unfold nonDecreasing at hd
      rw [hmap, List.append_assoc, List.pairwise_append] at hd
      have hxy := hd.2.2 x hx y hy
      have hx0 := ha x hx
      omega
    subst ha0
    simp only [List.nil_append] at hmap
    have hps : ps.isEmpty = false := by
      cases ps with
      | nil => simp at hmap
      | cons p rest => rfl
    have hfe : e.filter (fun p => decide (0 < p.Time)) = [] := by
      rw [List.filter_eq_nil_iff]
      intro x hx
      simpa using he x hx
    rw [hres]
    unfold strictRemoval
    simp only [hmap, hps, Bool.not_false, Bool.true_and, List.filter_append, hfe,
      List.nil_append]
    by_cases hqa : 0 < q.Time
    · have hra : ∀ y ∈ r, 0 < y.Time := by
        intro y hy
        unfold nonDecreasing at hd
        rw [hmap, List.pairwise_append, List.pairwise_cons] at hd
        have := hd.2.1.1 y hy
        omega
      have hfr : r.filter (fun p => decide (0 < p.Time)) = r := by
        rw [List.filter_eq_self]
        intro y hy
        simpa using hra y hy
      simp [List.filter_cons, hqa, hfr]
    · have hr0 : r = [] := by
        rcases hq with hq | hq
        · exact absurd hq hqa
        · exact hq
      subst hr0
      simp [List.filter_cons, hqa]
  · have hall : ∀ p ∈ ps.map decay, 0 < p.Time := by
      intro p hp
      by_contra hn
      exact h ⟨p, hp, not_lt.mp hn⟩
    rw [updatePheromones_all_alive ps hall]
    unfold strictRemoval
    have hf : (ps.map decay).filter (fun p => decide (0 < p.Time)) = ps.map decay := by
      rw [List.filter_eq_self]
      intro y hy
      simpa using hall y hy
    rw [hf]
    cases ps with
    | nil => rfl
    | cons p rest => simp

/-- C11, against the claim: the ordering is lost at the least `int32` value.  A single
marker is never dropped, so after 1800 + 2^31 ticks without a new marker the store that
began as one fresh marker holds that marker with `Time = -2147483648`; with a fresh
marker appended the store is ordered, `[-2147483648, 1800]`.  The next tick wraps the
first `Time` around: the result has the Times `[2147483647, 1799]`, which are not
non-decreasing.  Also, on the ordered store with Times `[-2147483648, -5, 3]` the code
leaves `[2]` while strict removal leaves `[2147483647, 2]`. -/
theorem updatePheromones_order_lost_after_wrap :
    (Nat.iterate updatePheromones 2147485448 [spotAt 0 0 1800] ++ [spotAt 10 10 1800]).map
      Pheromone.Time = [-2147483648, 1800] ∧
    nonDecreasing
      (Nat.iterate updatePheromones 2147485448 [spotAt 0 0 1800] ++ [spotAt 10 10 1800]) ∧
    (updatePheromones
      (Nat.iterate updatePheromones 2147485448 [spotAt 0 0 1800] ++ [spotAt 10 10 1800])).map
      Pheromone.Time = [2147483647, 1799] ∧
    ¬ nonDecreasing (updatePheromones
      (Nat.iterate updatePheromones 2147485448 [spotAt 0 0 1800] ++ [spotAt 10 10 1800])) ∧
    nonDecreasing [spotAt 0 0 (-2147483648), spotAt 0 0 (-5), spotAt 0 0 3] ∧
    updatePheromones [spotAt 0 0 (-2147483648), spotAt 0 0 (-5), spotAt 0 0 3] ≠
      strictRemoval [spotAt 0 0 (-2147483648), spotAt 0 0 (-5), spotAt 0 0 3] := by
  have hP : (Nat.iterate decay 2147485448 (spotAt 0 0 1800)).Time = -2147483648 := by
    rw [decay_iterate_time 2147485448 (spotAt 0 0 1800) (by simp [spotAt]) (by simp [spotAt])]
    simp [spotAt]
  rw [updatePheromones_iterate_single]
  generalize Nat.iterate decay 2147485448 (spotAt 0 0 1800) = P at hP
  have hdP : (decay P).Time = 2147483647 := by
    show wrapInt32 (P.Time - 1) = 2147483647
    rw [hP]; simp [wrapInt32]
  have hdS : (decay (spotAt 10 10 1800)).Time = 1799 := by
    simp [decay, spotAt, wrapInt32]
  have hres : updatePheromones ([P] ++ [spotAt 10 10 1800]) =
      [decay P, decay (spotAt 10 10 1800)] := by
    rw [updatePheromones_all_alive]
    · rfl
    · intro x hx
      simp only [List.singleton_append, List.map_cons, List.map_nil, List.mem_cons,
        List.mem_singleton, List.not_mem_nil, or_false] at hx
      rcases hx with rfl | rfl
      · rw [hdP]; norm_num
      · rw [hdS]; norm_num
  refine ⟨?_, ?_, ?_, ?_, ?_, ?_⟩
  · simp [hP, spotAt]
  · simp [nonDecreasing, hP, spotAt]
  · rw [hres]; simp [hdP, hdS]
  · rw [hres]; simp [nonDecreasing, hdP, hdS]
  · simp [nonDecreasing, spotAt]
  · intro h
    have h1 : (updatePheromones
        [spotAt 0 0 (-2147483648), spotAt 0 0 (-5), spotAt 0 0 3]).length = 1 := by
      simp [updatePheromones, updateLoop, updateSpot, decay, spotAt, wrapInt32]
    have h2 : (strictRemoval
        [spotAt 0 0 (-2147483648), spotAt 0 0 (-5), spotAt 0 0 3]).length = 2 := by
      simp [strictRemoval, decay, spotAt, wrapInt32]
    rw [h, h2] at h1
    exact absurd h1 (by decide)

/-- C11, as the code has it: on a store whose Times are non-decreasing in index order
and are `int32` values other than the least one, `updatePheromones` coincides with
strict removal (the markers whose decremented `Time` is `> 0`, in order; the last marker
alone when the store is not empty and none is alive), and the result again has
non-decreasing Times.  The program keeps this ordering: when moreover no `Time` exceeds
`PheromoneMaxTime`, that bound holds after the tick as well, and the store that
`moveAnt` leaves, with its marker of `Time = PheromoneMaxTime` appended at the tail, is
again ordered and within the bound. -/
theorem updatePheromones_refines_strictRemoval (ps : List Pheromone) (hs : nonDecreasing ps)
    (hr : ∀ p ∈ ps, -2147483648 < p.Time ∧ p.Time < 2147483648) :
    updatePheromones ps = strictRemoval ps ∧
    nonDecreasing (updatePheromones ps) ∧
    ((∀ p ∈ ps, p.Time ≤ PheromoneMaxTime) →
      (∀ p ∈ updatePheromones ps, p.Time ≤ PheromoneMaxTime) ∧
      ∀ (ant : Ant) (t : Point), nonDecreasing (recordStep ant ps t).2 ∧
        ∀ p ∈ (recordStep ant ps t).2, p.Time ≤ PheromoneMaxTime) := by
  obtain ⟨k, _, hk⟩ := updatePheromones_eq_drop ps
  refine ⟨updatePheromones_strict_of_ordered ps hs hr, ?_, ?_⟩
  · rw [hk]
    exact List.Pairwise.drop (nonDecreasing_decay ps hs hr)
  · intro hmax
    constructor
    · intro p hp
      rw [hk] at hp
      obtain ⟨x, hx, rfl⟩ := List.mem_map.mp (List.mem_of_mem_drop hp)
      rw [decay_time x (hr x hx)]
      have := hmax x hx
      omega
    · intro ant t
      rcases recordStep_store ant ps t with h | ⟨spot, hspot, h⟩
      · rw [h]; exact ⟨hs, hmax⟩
      · rw [h]
        refine ⟨nonDecreasing_append ps spot hs (by rw [hspot]; exact hmax), ?_⟩
        intro p hp
        rcases List.mem_append.mp hp with hp | hp
        · exact hmax p hp
        · rw [List.mem_singleton.mp hp, hspot]

/-- The amended C11 on the ordered store with Times `[-3, 0, 1, 5]`. -/
theorem updatePheromones_refines_strictRemoval_witness :
    nonDecreasing [spotAt 0 0 (-3), spotAt 0 0 0, spotAt 0 0 1, spotAt 0 0 5] ∧
    updatePheromones [spotAt 0 0 (-3), spotAt 0 0 0, spotAt 0 0 1, spotAt 0 0 5] =
      strictRemoval [spotAt 0 0 (-3), spotAt 0 0 0, spotAt 0 0 1, spotAt 0 0 5] ∧
    nonDecreasing
      (updatePheromones [spotAt 0 0 (-3), spotAt 0 0 0, spotAt 0 0 1, spotAt 0 0 5]) :=
  have hs : nonDecreasing [spotAt 0 0 (-3), spotAt 0 0 0, spotAt 0 0 1, spotAt 0 0 5] := by
    simp [nonDecreasing, spotAt]
  have h := updatePheromones_refines_strictRemoval
    [spotAt 0 0 (-3), spotAt 0 0 0, spotAt 0 0 1, spotAt 0 0 5] hs (by simp [spotAt])
  ⟨hs, h.1, h.2.1⟩

end Ants
